import Mathlib

/-!
Verification of the notebook editing server (src/notebook_mcp/server.py).

The document model and every operation the claims touch are embedded as
executable Lean definitions, translated clause by clause from the Python
source.  The persistent store is modelled explicitly: every operation takes
the stored notebook, returns the stored notebook after the call together
with the number of save calls it performed and its result value, so that
"no save occurred" and "saved exactly once" are provable statements.
-/

namespace NotebookMcp

/-- Cell type: the server only ever constructs code or markdown cells
(the Literal annotation in the source restricts the argument likewise). -/
inductive CellType
  | code
  | markdown
deriving Repr, DecidableEq, Inhabited

/-- A MIME bundle entry of an execute_result / display_data output:
the value is either a single text or a list of text lines
(the source tests isinstance(data, list) before joining). -/
inductive MimeVal
  | str (s : String)
  | list (l : List String)
deriving Repr, DecidableEq

/-- An output record of a code cell: the tagged union the source reads
via output.get("output_type"). -/
inductive Output
  | stream (name text : String)
  | execute_result (data : List (String × MimeVal)) (execution_count : Option Int)
  | display_data (data : List (String × MimeVal))
  | error (ename evalue : String) (traceback : List String)
deriving Repr, DecidableEq

/-- A JSON value, the codomain of the json.loads model used by the
metadata operations.  Numbers keep their lexeme: none of the operations
ever computes with a parsed number. -/
inductive JVal
  | null
  | bool (b : Bool)
  | num (lexeme : String)
  | str (s : String)
  | arr (xs : List JVal)
  | obj (fields : List (String × JVal))
deriving Repr, Inhabited

/-- One notebook cell.  nbformat markdown cells carry no outputs and no
execution_count; they are modelled by an empty list and none. -/
structure Cell where
  cell_type : CellType
  source : String
  metadata : List (String × JVal)
  outputs : List Output
  execution_count : Option Int
deriving Repr

instance : Inhabited Cell := ⟨⟨.code, "", [], [], none⟩⟩

/-- The notebook: an ordered cell list plus document-level metadata. -/
structure Notebook where
  cells : List Cell
  metadata : List (String × JVal)
deriving Repr, Inhabited

/-- The IndexOutOfRange error raised by the validators: the offending
index and the valid range the message reports (lo ~ hi). -/
structure IdxError where
  index : Int
  lo : Int
  hi : Int
deriving Repr, DecidableEq

/-- Result of one operation call against the store: the stored notebook
after the call, how many times _save_notebook ran, and the value the
operation returned (or the exception it raised). -/
structure Call (α : Type) where
  store : Notebook
  saves : Nat
  out : α
deriving Repr

/-- Python dict assignment d[k] = v on an association list: overwrite the
existing entry in place, else append at the end. -/
def setKey (m : List (String × JVal)) (k : String) (v : JVal) : List (String × JVal) :=
  if m.any (fun p => p.1 = k) then m.map (fun p => if p.1 = k then (k, v) else p)
  else m ++ [(k, v)]

/-- Replace the element at an index by f (Python cells[i].field = ... ). -/
def modifyAt {α : Type} (i : Nat) (f : α → α) : List α → List α
  | [] => []
  | c :: cs =>
    match i with
    | 0 => f c :: cs
    | i + 1 => c :: modifyAt i f cs

/-- source[:n].replace newline by a space — the preview the editing
operations put into their confirmation messages. -/
def previewSpace (n : Nat) (s : String) : String :=
  (s.take n).replace "\n" " "

/-- source[:n].replace newline by the visible return glyph — the preview
used by search and replace. -/
def previewMark (n : Nat) (s : String) : String :=
  (s.take n).replace "\n" "↵"

/-- new_code_cell(source=...): empty metadata, empty outputs, no
execution_count. -/
def new_code_cell (source : String) : Cell :=
  ⟨.code, source, [], [], none⟩

/-- new_markdown_cell(source=...): empty metadata. -/
def new_markdown_cell (source : String) : Cell :=
  ⟨.markdown, source, [], [], none⟩

/-- _validate_cell_index: raises ValueError when index < 0 or
index >= len(nb.cells), reporting the valid range 0 ~ len-1. -/
def _validate_cell_index (nb : Notebook) (index : Int) : Except IdxError Unit :=
  if index < 0 ∨ index ≥ (nb.cells.length : Int) then
    .error ⟨index, 0, (nb.cells.length : Int) - 1⟩
  else
    .ok ()

/-- add_cell: build the new cell, resolve the position (None defaults to
len(cells), an explicit position must satisfy 0 <= position <= len),
insert, save.  Returns the resolved position and the new cell count. -/
def add_cell (store : Notebook) (cell_type : CellType) (source : String)
    (position : Option Int) : Call (Except IdxError (Int × Nat)) :=
  let nb := store
  let new_cell := match cell_type with
    | .code => new_code_cell source
    | .markdown => new_markdown_cell source
  match position with
  | none =>
    let pos : Int := nb.cells.length
    let nb' := { nb with cells := nb.cells.insertIdx pos.toNat new_cell }
    ⟨nb', 1, .ok (pos, nb'.cells.length)⟩
  | some p =>
    if p < 0 ∨ p > (nb.cells.length : Int) then
      ⟨store, 0, .error ⟨p, 0, nb.cells.length⟩⟩
    else
      let nb' := { nb with cells := nb.cells.insertIdx p.toNat new_cell }
      ⟨nb', 1, .ok (p, nb'.cells.length)⟩

/-- update_cell: validate, replace the source of the cell in place,
save; returns the before/after previews. -/
def update_cell (store : Notebook) (cell_index : Int) (new_source : String) :
    Call (Except IdxError (String × String)) :=
  match _validate_cell_index store cell_index with
  | .error e => ⟨store, 0, .error e⟩
  | .ok _ =>
    let old_preview := previewSpace 30 (store.cells.getD cell_index.toNat default).source
    let nb' := { store with
      cells := modifyAt cell_index.toNat (fun c => { c with source := new_source }) store.cells }
    ⟨nb', 1, .ok (old_preview, previewSpace 30 new_source)⟩

/-- delete_cell: validate, pop the cell, save; returns the removed
preview and the remaining count. -/
def delete_cell (store : Notebook) (cell_index : Int) :
    Call (Except IdxError (String × Nat)) :=
  match _validate_cell_index store cell_index with
  | .error e => ⟨store, 0, .error e⟩
  | .ok _ =>
    let deleted_cell := store.cells.getD cell_index.toNat default
    let nb' := { store with cells := store.cells.eraseIdx cell_index.toNat }
    ⟨nb', 1, .ok (previewSpace 30 deleted_cell.source, nb'.cells.length)⟩

/-- move_cell: validate from_index, check to_index against the same
bounds, pop the cell at from_index, insert it at to_index of the
shortened list, save; returns the moved cell's preview. -/
def move_cell (store : Notebook) (from_index to_index : Int) :
    Call (Except IdxError String) :=
  match _validate_cell_index store from_index with
  | .error e => ⟨store, 0, .error e⟩
  | .ok _ =>
    if to_index < 0 ∨ to_index ≥ (store.cells.length : Int) then
      ⟨store, 0, .error ⟨to_index, 0, (store.cells.length : Int) - 1⟩⟩
    else
      let cell := store.cells.getD from_index.toNat default
      let popped := store.cells.eraseIdx from_index.toNat
      let nb' := { store with cells := popped.insertIdx to_index.toNat cell }
      ⟨nb', 1, .ok (previewSpace 30 cell.source)⟩

/-- duplicate_cell: validate, rebuild a fresh cell of the same type and
source (outputs excluded), copy the metadata dict, insert right after
the original, save. -/
def duplicate_cell (store : Notebook) (cell_index : Int) :
    Call (Except IdxError (Nat × String)) :=
  match _validate_cell_index store cell_index with
  | .error e => ⟨store, 0, .error e⟩
  | .ok _ =>
    let original_cell := store.cells.getD cell_index.toNat default
    let new_cell := match original_cell.cell_type with
      | .code => new_code_cell original_cell.source
      | .markdown => new_markdown_cell original_cell.source
    let new_cell := { new_cell with metadata := original_cell.metadata }
    let insert_position := cell_index.toNat + 1
    let nb' := { store with cells := store.cells.insertIdx insert_position new_cell }
    ⟨nb', 1, .ok (insert_position, previewSpace 40 original_cell.source)⟩

/-- change_cell_type: validate; same type is a no-op without a save;
otherwise build a fresh cell of the new type with the same source
(outputs and execution_count dropped), copy the metadata entries over
one by one, replace the cell wholesale, save.  The Bool reports whether
a change happened. -/
def change_cell_type (store : Notebook) (cell_index : Int) (new_type : CellType) :
    Call (Except IdxError Bool) :=
  match _validate_cell_index store cell_index with
  | .error e => ⟨store, 0, .error e⟩
  | .ok _ =>
    let old_cell := store.cells.getD cell_index.toNat default
    if old_cell.cell_type = new_type then
      ⟨store, 0, .ok false⟩
    else
      let source := old_cell.source
      let new_cell := match new_type with
        | .code => new_code_cell source
        | .markdown => new_markdown_cell source
      let new_cell := { new_cell with
        metadata := old_cell.metadata.foldl (fun m kv => setKey m kv.1 kv.2) [] }
      let nb' := { store with
        cells := modifyAt cell_index.toNat (fun _ => new_cell) store.cells }
      ⟨nb', 1, .ok true⟩

/-! ## json.loads model

The metadata operations first try value as JSON.  The parser below follows
the JSON grammar accepted by Python's json.loads: optional surrounding
whitespace, the literals true, false and null (plus NaN and the signed
Infinity literals, which json.loads accepts by default), numbers, strings with the standard
escapes, arrays and objects.  Numbers are kept as lexemes.  A parse that
leaves trailing non-whitespace input fails, as json.loads does. -/

/-- Remove pre from the front of a list when it is a prefix. -/
def dropPre : List Char → List Char → Option (List Char)
  | [], l => some l
  | _, [] => none
  | p :: ps, c :: cs => if c = p then dropPre ps cs else none

/-- JSON whitespace: space, tab, newline, carriage return. -/
def jsonWs (c : Char) : Bool :=
  c = ' ' ∨ c = '\t' ∨ c = '\n' ∨ c = '\r'

def skipWsL (l : List Char) : List Char := l.dropWhile jsonWs

/-- The single-character string escapes of JSON. -/
def escCharJ (c : Char) : Option Char :=
  if c = '"' then some '"'
  else if c = '\\' then some '\\'
  else if c = '/' then some '/'
  else if c = 'b' then some (Char.ofNat 8)
  else if c = 'f' then some (Char.ofNat 12)
  else if c = 'n' then some '\n'
  else if c = 'r' then some '\r'
  else if c = 't' then some '\t'
  else none

def hexVal (c : Char) : Option Nat :=
  if '0' ≤ c ∧ c ≤ '9' then some (c.toNat - 48)
  else if 'a' ≤ c ∧ c ≤ 'f' then some (c.toNat - 87)
  else if 'A' ≤ c ∧ c ≤ 'F' then some (c.toNat - 55)
  else none

/-- Body of a JSON string after the opening quote: returns the decoded
characters and the input after the closing quote.  Raw control
characters are rejected, as json.loads does in strict mode. -/
def jsonStringBody : List Char → Option (List Char × List Char)
  | [] => none
  | c :: rest =>
    if c = '"' then some ([], rest)
    else if c = '\\' then
      match rest with
      | [] => none
      | e :: rest2 =>
        if e = 'u' then
          match rest2 with
          | h1 :: h2 :: h3 :: h4 :: rest3 =>
            match hexVal h1, hexVal h2, hexVal h3, hexVal h4 with
            | some a, some b, some x, some d =>
              (jsonStringBody rest3).map
                (fun p => (Char.ofNat (((a * 16 + b) * 16 + x) * 16 + d) :: p.1, p.2))
            | _, _, _, _ => none
          | _ => none
        else
          match escCharJ e with
          | some ch => (jsonStringBody rest2).map (fun p => (ch :: p.1, p.2))
          | none => none
    else if c.toNat < 32 then none
    else (jsonStringBody rest).map (fun p => (c :: p.1, p.2))

/-- Integer part of a JSON number: 0, or a nonzero digit followed by
digits. -/
def jsonIntPart (l : List Char) : Option (List Char × List Char) :=
  match l with
  | [] => none
  | c :: rest =>
    if c = '0' then some ([c], rest)
    else if c.isDigit then
      let ds := rest.takeWhile Char.isDigit
      some (c :: ds, rest.drop ds.length)
    else none

/-- Optional fraction part: a dot followed by at least one digit. -/
def jsonFracPart (l : List Char) : List Char × List Char :=
  match l with
  | '.' :: rest =>
    let ds := rest.takeWhile Char.isDigit
    if ds.isEmpty then ([], l) else ('.' :: ds, rest.drop ds.length)
  | _ => ([], l)

/-- Optional exponent part: e or E, an optional sign, at least one
digit. -/
def jsonExpPart (l : List Char) : List Char × List Char :=
  match l with
  | [] => ([], l)
  | e :: rest =>
    if e = 'e' ∨ e = 'E' then
      match rest with
      | [] => ([], l)
      | s :: rest2 =>
        if s = '+' ∨ s = '-' then
          let ds := rest2.takeWhile Char.isDigit
          if ds.isEmpty then ([], l) else (e :: s :: ds, rest2.drop ds.length)
        else
          let ds := rest.takeWhile Char.isDigit
          if ds.isEmpty then ([], l) else (e :: ds, rest.drop ds.length)
    else ([], l)

/-- A JSON number lexeme. -/
def jsonNumber (l : List Char) : Option (List Char × List Char) :=
  let sl : List Char × List Char := match l with
    | '-' :: rest => (['-'], rest)
    | _ => ([], l)
  match jsonIntPart sl.2 with
  | none => none
  | some (ip, l2) =>
    let (fp, l3) := jsonFracPart l2
    let (ep, l4) := jsonExpPart l3
    some (sl.1 ++ ip ++ fp ++ ep, l4)

mutual

/-- A JSON value (input must not start with whitespace). -/
def jsonValue : Nat → List Char → Option (JVal × List Char)
  | 0, _ => none
  | _, [] => none
  | fuel + 1, c :: rest =>
    if c = '"' then
      (jsonStringBody rest).map (fun p => (.str (String.mk p.1), p.2))
    else if c = '[' then
      jsonArrItems fuel (skipWsL rest)
    else if c = '{' then
      jsonObjItems fuel (skipWsL rest)
    else
      match dropPre ['t','r','u','e'] (c :: rest) with
      | some r => some (.bool true, r)
      | none =>
      match dropPre ['f','a','l','s','e'] (c :: rest) with
      | some r => some (.bool false, r)
      | none =>
      match dropPre ['n','u','l','l'] (c :: rest) with
      | some r => some (.null, r)
      | none =>
      match dropPre ['N','a','N'] (c :: rest) with
      | some r => some (.num "NaN", r)
      | none =>
      match dropPre ['I','n','f','i','n','i','t','y'] (c :: rest) with
      | some r => some (.num "Infinity", r)
      | none =>
      match dropPre ['-','I','n','f','i','n','i','t','y'] (c :: rest) with
      | some r => some (.num "-Infinity", r)
      | none =>
        (jsonNumber (c :: rest)).map (fun p => (.num (String.mk p.1), p.2))

/-- Array items, entered just after the opening bracket and its
whitespace. -/
def jsonArrItems : Nat → List Char → Option (JVal × List Char)
  | 0, _ => none
  | fuel + 1, l =>
    match l with
    | ']' :: rest => some (.arr [], rest)
    | _ =>
      match jsonValue fuel l with
      | none => none
      | some (v, r) => jsonArrRest fuel [v] r

/-- Remaining array items: expects a comma or the closing bracket. -/
def jsonArrRest : Nat → List JVal → List Char → Option (JVal × List Char)
  | 0, _, _ => none
  | fuel + 1, acc, l =>
    match skipWsL l with
    | ']' :: rest => some (.arr acc.reverse, rest)
    | ',' :: rest =>
      match jsonValue fuel (skipWsL rest) with
      | none => none
      | some (v, r) => jsonArrRest fuel (v :: acc) r
    | _ => none

/-- Object members, entered just after the opening brace and its
whitespace. -/
def jsonObjItems : Nat → List Char → Option (JVal × List Char)
  | 0, _ => none
  | fuel + 1, l =>
    match l with
    | '}' :: rest => some (.obj [], rest)
    | _ =>
      match jsonPair fuel l with
      | none => none
      | some (kv, r) => jsonObjRest fuel [kv] r

/-- Remaining object members: expects a comma or the closing brace. -/
def jsonObjRest : Nat → List (String × JVal) → List Char → Option (JVal × List Char)
  | 0, _, _ => none
  | fuel + 1, acc, l =>
    match skipWsL l with
    | '}' :: rest => some (.obj acc.reverse, rest)
    | ',' :: rest =>
      match jsonPair fuel (skipWsL rest) with
      | none => none
      | some (kv, r) => jsonObjRest fuel (kv :: acc) r
    | _ => none

/-- One key: value member of an object. -/
def jsonPair : Nat → List Char → Option ((String × JVal) × List Char)
  | 0, _ => none
  | fuel + 1, l =>
    match l with
    | '"' :: rest =>
      match jsonStringBody rest with
      | none => none
      | some (k, r1) =>
        match skipWsL r1 with
        | ':' :: r2 =>
          match jsonValue fuel (skipWsL r2) with
          | none => none
          | some (v, r3) => some ((String.mk k, v), r3)
        | _ => none
    | _ => none

end

/-- json.loads: surrounding whitespace allowed, exactly one value, no
trailing input.  The fuel bounds the nesting depth; one character per
nesting level makes length + 1 always enough. -/
def json_loads (value : String) : Option JVal :=
  let cs := skipWsL value.toList
  match jsonValue (value.length + 1) cs with
  | some (v, rest) => if (skipWsL rest).isEmpty then some v else none
  | none => none

/-- update_notebook_metadata: try the value as JSON, fall back to the
literal text on a parse failure, assign under the key, save. -/
def update_notebook_metadata (store : Notebook) (key value : String) : Call JVal :=
  let parsed_value := match json_loads value with
    | some v => v
    | none => .str value
  let nb' := { store with metadata := setKey store.metadata key parsed_value }
  ⟨nb', 1, parsed_value⟩

/-- update_cell_metadata: validate the index, then parse-or-fallback and
assign into the cell's metadata, save. -/
def update_cell_metadata (store : Notebook) (cell_index : Int) (key value : String) :
    Call (Except IdxError JVal) :=
  match _validate_cell_index store cell_index with
  | .error e => ⟨store, 0, .error e⟩
  | .ok _ =>
    let parsed_value := match json_loads value with
      | some v => v
      | none => .str value
    let nb' := { store with
      cells := modifyAt cell_index.toNat
        (fun c => { c with metadata := setKey c.metadata key parsed_value }) store.cells }
    ⟨nb', 1, .ok parsed_value⟩

/-! ## The regular-expression fragment

Search and replace compile the pattern with re.compile, escaping it first
with re.escape when use_regex is false.  The fragment modelled here is the
one the escaped patterns (and the simple wildcard patterns of the claims)
live in: a sequence of single-character tokens, each a literal character
or the dot wildcard.  Every token consumes exactly one character, so a
match of rx has length rx.length.  The parser is three-valued: ok for a
pattern inside the fragment, err for a pattern re.compile itself rejects
(lone trailing backslash, bad escape of an ASCII letter, a group
reference with no group to refer to, a quantifier with nothing to repeat,
an unbalanced closing parenthesis), and unsupported for syntax that is
valid for re.compile but outside this fragment (classes, groups,
quantifiers after an atom, anchors, alternation); nothing is claimed
about unsupported patterns. -/

/-- A regex token of the fragment: a literal character or the dot
wildcard (which matches any character except a newline). -/
inductive RTok
  | Lit (c : Char)
  | Dot
deriving Repr, DecidableEq

/-- Outcome of compiling a pattern, see the section comment. -/
inductive RxParse
  | ok (rx : List RTok)
  | err
  | unsupported
deriving Repr, DecidableEq

/-- Prepend a token to a successful parse. -/
def rxCons (t : RTok) : RxParse → RxParse
  | .ok rx => .ok (t :: rx)
  | .err => .err
  | .unsupported => .unsupported

/-- The characters re.escape prefixes with a backslash (the special
characters map of Python's re module). -/
def reSpecialChars : List Char :=
  ['(', ')', '[', ']', '{', '}', '?', '*', '+', '-', '|', '^', '$', '\\', '.', '&', '~', '#',
   ' ', '\t', '\n', '\r', Char.ofNat 11, Char.ofNat 12]

def reSpecial (c : Char) : Bool := decide (c ∈ reSpecialChars)

/-- re.escape: prefix every special character with a backslash. -/
def reEscape (l : List Char) : List Char :=
  (l.map (fun c => if reSpecial c then ['\\', c] else [c])).flatten

/-- Escapes that denote a single character inside a pattern. -/
def patEscChar (d : Char) : Option Char :=
  if d = 'a' then some (Char.ofNat 7)
  else if d = 'f' then some (Char.ofNat 12)
  else if d = 'n' then some '\n'
  else if d = 'r' then some '\r'
  else if d = 't' then some '\t'
  else if d = 'v' then some (Char.ofNat 11)
  else none

/-- Escaped letters that are valid regex syntax outside the fragment
(character classes, anchors, multi-character escapes). -/
def patClassLetters : List Char :=
  ['A', 'b', 'B', 'd', 'D', 's', 'S', 'w', 'W', 'Z', 'x', 'u', 'U', 'N']

/-- Pattern parser; prevAtom records whether a token was already parsed,
which decides whether a quantifier is merely unsupported or the
nothing-to-repeat compile error. -/
def parseRxA : Bool → List Char → RxParse
  | _, [] => .ok []
  | prevAtom, c :: rest =>
    if c = '\\' then
      match rest with
      | [] => .err
      | d :: rest2 =>
        if d.isDigit then (if d = '0' then .unsupported else .err)
        else
          match patEscChar d with
          | some ch => rxCons (.Lit ch) (parseRxA true rest2)
          | none =>
            if d ∈ patClassLetters then .unsupported
            else if d.isAlpha then .err
            else rxCons (.Lit d) (parseRxA true rest2)
    else if c = '.' then rxCons .Dot (parseRxA true rest)
    else if c = '*' ∨ c = '+' ∨ c = '?' then
      (if prevAtom then .unsupported else .err)
    else if c = '(' ∨ c = '[' ∨ c = '{' ∨ c = '|' ∨ c = '^' ∨ c = '$' then .unsupported
    else if c = ')' then .err
    else rxCons (.Lit c) (parseRxA true rest)

def parseRx (l : List Char) : RxParse := parseRxA false l

/-- Character comparison under the IGNORECASE flag. -/
def charEqCI (case_sensitive : Bool) (a b : Char) : Bool :=
  if case_sensitive then a = b else a.toLower = b.toLower

def tokMatch (cs : Bool) : RTok → Char → Bool
  | .Lit d, c => charEqCI cs d c
  | .Dot, c => c ≠ '\n'

/-- rx matches a prefix of s. -/
def tokensMatch (cs : Bool) : List RTok → List Char → Bool
  | [], _ => true
  | _ :: _, [] => false
  | t :: ts, c :: rest => tokMatch cs t c && tokensMatch cs ts rest

/-- The non-overlapping left-to-right scan of finditer for a non-empty
token list: report a match and continue after its end, else advance one
character.  The skip argument counts characters still covered by the
previous match (the scan resumes at the match end); a fresh scan starts
with skip zero. -/
def scanMA (cs : Bool) (t : RTok) (ts : List RTok) : List Char → Nat → Nat → List Nat
  | [], _, _ => []
  | c :: rest, pos, skip =>
    match skip with
    | k + 1 => scanMA cs t ts rest (pos + 1) k
    | 0 =>
      if tokensMatch cs (t :: ts) (c :: rest) then
        pos :: scanMA cs t ts rest (pos + 1) ts.length
      else
        scanMA cs t ts rest (pos + 1) 0

/-- The start positions of the matches of finditer.  An empty pattern
matches (emptily) at every position, as in Python. -/
def scanMatches (cs : Bool) (rx : List RTok) (s : List Char) : List Nat :=
  match rx with
  | [] => List.range (s.length + 1)
  | t :: ts => scanMA cs t ts s 0 0

def octVal (c : Char) : Option Nat :=
  if '0' ≤ c ∧ c ≤ '7' then some (c.toNat - 48) else none

/-- Expansion of the replacement template of re.sub against one match:
backslash-backslash and the letter escapes become their characters, g<0>
and the octal escapes are substituted, a group reference (there are no
groups in the fragment) or a bad escape of an ASCII letter is the
re.error the sub call raises (none), an escaped non-letter keeps its
backslash, every other character stands for itself.  An octal escape is
the zero digit followed by up to two more octal digits. -/
def expandTemplate (matched : List Char) : List Char → Option (List Char)
  | [] => some []
  | c :: rest =>
    if c = '\\' then
      match rest with
      | [] => none
      | d :: rest2 =>
        if d = 'g' then
          match rest2 with
          | '<' :: '0' :: '>' :: rest3 =>
            (expandTemplate matched rest3).map (fun r => matched ++ r)
          | _ => none
        else if d = '0' then
          match rest2 with
          | d1 :: d2 :: rest3 =>
            match octVal d1, octVal d2 with
            | some o1, some o2 =>
              (expandTemplate matched rest3).map (fun r => Char.ofNat (o1 * 8 + o2) :: r)
            | some o1, none =>
              (expandTemplate matched (d2 :: rest3)).map (fun r => Char.ofNat o1 :: r)
            | none, _ =>
              (expandTemplate matched (d1 :: d2 :: rest3)).map (fun r => Char.ofNat 0 :: r)
          | [d1] =>
            match octVal d1 with
            | some o1 => (expandTemplate matched []).map (fun r => Char.ofNat o1 :: r)
            | none => (expandTemplate matched [d1]).map (fun r => Char.ofNat 0 :: r)
          | [] => (expandTemplate matched []).map (fun r => Char.ofNat 0 :: r)
        else if d.isDigit then none
        else if d = 'b' then
          (expandTemplate matched rest2).map (fun r => Char.ofNat 8 :: r)
        else
          match patEscChar d with
          | some ch => (expandTemplate matched rest2).map (fun r => ch :: r)
          | none =>
            if d = '\\' then (expandTemplate matched rest2).map (fun r => '\\' :: r)
            else if d.isAlpha then none
            else (expandTemplate matched rest2).map (fun r => '\\' :: d :: r)
    else (expandTemplate matched rest).map (fun r => c :: r)

/-- re.sub over a non-empty token list: replace each non-overlapping
match by the expanded template.  The skip argument counts characters of
the previous match still to be consumed without being copied; a fresh
substitution starts with skip zero. -/
def rsubA (cs : Bool) (t : RTok) (ts : List RTok) (tmpl : List Char) :
    List Char → Nat → Option (List Char)
  | [], _ => some []
  | c :: rest, skip =>
    match skip with
    | k + 1 => rsubA cs t ts tmpl rest k
    | 0 =>
      if tokensMatch cs (t :: ts) (c :: rest) then
        match expandTemplate ((c :: rest).take (1 + ts.length)) tmpl with
        | none => none
        | some e =>
          match rsubA cs t ts tmpl rest ts.length with
          | none => none
          | some r => some (e ++ r)
      else
        (rsubA cs t ts tmpl rest 0).map (fun r => c :: r)

/-- re.sub: the empty pattern inserts the expansion at every position. -/
def rsub (cs : Bool) (rx : List RTok) (tmpl : List Char) (s : List Char) :
    Option (List Char) :=
  match rx with
  | [] =>
    match expandTemplate [] tmpl with
    | none => none
    | some e => some (e ++ (s.map (fun c => c :: e)).flatten)
  | t :: ts => rsubA cs t ts tmpl s 0

/-! ## search_notebook and replace_in_notebook -/

/-- Result of search_notebook: the pattern-error notice, the zero-result
notice, or per matching cell its index, type, and per match the context
window and the matched text. -/
inductive SearchOut
  | patternError
  | unmodeled
  | noMatches
  | found (total : Nat) (cells : List (Nat × CellType × List (String × String)))
deriving Repr

/-- Context window of one match: 20 characters before the start, 20
after the end, clipped to the text, newlines shown as the return
glyph. -/
def matchContext (src : List Char) (st len : Nat) : String :=
  let a := st - 20
  let b := min src.length (st + len + 20)
  String.mk (((src.drop a).take (b - a)).map (fun c => if c = '\n' then '↵' else c))

def matchedText (src : List Char) (st len : Nat) : String :=
  String.mk ((src.drop st).take len)

/-- The per-cell match reports of the search loop: for every cell its
index, type, and one context/matched-text pair per match. -/
def searchPerCell (cs : Bool) (rx : List RTok) (cells : List Cell) :
    List (Nat × CellType × List (String × String)) :=
  cells.enum.map (fun ic =>
    (ic.1, ic.2.cell_type, (scanMatches cs rx ic.2.source.toList).map (fun st =>
      (matchContext ic.2.source.toList st rx.length,
       matchedText ic.2.source.toList st rx.length))))

/-- The search body once the pattern has compiled: scan every cell,
report the zero-result notice or the total and the cells with at least
one match.  Read-only: no save. -/
def searchScan (store : Notebook) (cs : Bool) (rx : List RTok) : Call SearchOut :=
  if ((searchPerCell cs rx store.cells).map (fun r => r.2.2.length)).sum = 0 then
    ⟨store, 0, .noMatches⟩
  else
    ⟨store, 0, .found ((searchPerCell cs rx store.cells).map (fun r => r.2.2.length)).sum
      ((searchPerCell cs rx store.cells).filter (fun r => ¬ r.2.2.isEmpty))⟩

/-- search_notebook: escape unless use_regex, compile (an re.error is
returned as output text), then run the scan. -/
def search_notebook (store : Notebook) (pattern : String)
    (use_regex case_sensitive : Bool) : Call SearchOut :=
  let pat := if use_regex then pattern.toList else reEscape pattern.toList
  match parseRx pat with
  | .err => ⟨store, 0, .patternError⟩
  | .unsupported => ⟨store, 0, .unmodeled⟩
  | .ok rx => searchScan store case_sensitive rx

/-- One entry of the change report of replace_in_notebook. -/
structure ReplaceChange where
  index : Nat
  cell_type : CellType
  count : Nat
  old_preview : String
  new_preview : String
deriving Repr

/-- Result of replace_in_notebook.  subError is the re.error a bad
replacement template raises inside regex.sub, which propagates out of
the call before any save. -/
inductive ReplaceOut
  | patternError
  | unmodeled
  | subError
  | noMatches
  | preview (total : Nat) (changes : List ReplaceChange)
  | replaced (total : Nat) (changes : List ReplaceChange)
deriving Repr

/-- The cell loop of replace_in_notebook: for every cell with at least
one match count the matches, compute the substituted text and the
before/after previews, and (only when preview_only is false) replace the
cell's source in memory. -/
def replaceLoop (cs : Bool) (rx : List RTok) (tmpl : List Char) (preview_only : Bool) :
    List Cell → Nat → Option (List Cell × List ReplaceChange × Nat)
  | [], _ => some ([], [], 0)
  | cell :: rest, i =>
    let src := cell.source.toList
    let ms := scanMatches cs rx src
    if ms.isEmpty then
      (replaceLoop cs rx tmpl preview_only rest (i + 1)).map
        (fun r => (cell :: r.1, r.2.1, r.2.2))
    else
      match rsub cs rx tmpl src with
      | none => none
      | some new_source_l =>
        let new_source := String.mk new_source_l
        let change : ReplaceChange :=
          ⟨i, cell.cell_type, ms.length, previewMark 50 cell.source, previewMark 50 new_source⟩
        let cell' := if preview_only then cell else { cell with source := new_source }
        (replaceLoop cs rx tmpl preview_only rest (i + 1)).map
          (fun r => (cell' :: r.1, change :: r.2.1, ms.length + r.2.2))

/-- The replace body once the pattern has compiled: run the cell loop,
then: a template error propagates with no save; no match at all is the
zero-result notice with no save; preview_only reports the changes
without saving; otherwise the mutated notebook is saved exactly once
after all cells are processed. -/
def replaceRun (store : Notebook) (cs : Bool) (rx : List RTok) (tmpl : List Char)
    (preview_only : Bool) : Call ReplaceOut :=
  match replaceLoop cs rx tmpl preview_only store.cells 0 with
  | none => ⟨store, 0, .subError⟩
  | some (cells', changes, total) =>
    if total = 0 then ⟨store, 0, .noMatches⟩
    else if preview_only then ⟨store, 0, .preview total changes⟩
    else ⟨{ store with cells := cells' }, 1, .replaced total changes⟩

/-- replace_in_notebook: escape unless use_regex, compile (an re.error
is returned as output text), then run the replace body. -/
def replace_in_notebook (store : Notebook) (pattern replacement : String)
    (use_regex case_sensitive preview_only : Bool) : Call ReplaceOut :=
  let pat := if use_regex then pattern.toList else reEscape pattern.toList
  match parseRx pat with
  | .err => ⟨store, 0, .patternError⟩
  | .unsupported => ⟨store, 0, .unmodeled⟩
  | .ok rx => replaceRun store case_sensitive rx replacement.toList preview_only

/-! ## get_cell_context -/

/-- Condensed form of one output record, as _extract_cell_info builds
it: the output_type tag, the text preview when one applies, and for
error outputs the ename and evalue (never the traceback). -/
structure OutputInfo where
  type : String
  preview : Option String := none
  ename : Option String := none
  evalue : Option String := none
deriving Repr, DecidableEq

/-- text[:200] with the ellipsis appended only when the text is
longer. -/
def truncate200 (t : String) : String :=
  t.take 200 ++ (if t.length > 200 then "..." else "")

/-- A text/plain entry that is a list of strings is joined into one
string; a single string is taken as is. -/
def mimeText : MimeVal → String
  | .str s => s
  | .list l => String.join l

/-- The output condensation of _extract_cell_info. -/
def condenseOutput : Output → OutputInfo
  | .stream _ text => { type := "stream", preview := some (truncate200 text) }
  | .execute_result data _ =>
    (match data.lookup "text/plain" with
     | some mv => { type := "execute_result", preview := some (truncate200 (mimeText mv)) }
     | none => { type := "execute_result" })
  | .display_data data =>
    (match data.lookup "text/plain" with
     | some mv => { type := "display_data", preview := some (truncate200 (mimeText mv)) }
     | none => { type := "display_data" })
  | .error ename evalue _ => { type := "error", ename := some ename, evalue := some evalue }

/-- The keys a context record carries only for code cells. -/
structure CodeInfo where
  execution_count : Option Int
  outputs : Option (List OutputInfo)
deriving Repr, DecidableEq

/-- One record of the context bundle. -/
structure CellInfo where
  index : Nat
  cell_type : CellType
  source : String
  is_target : Bool
  code_info : Option CodeInfo
deriving Repr, DecidableEq

/-- _extract_cell_info: index, type, full source and the target flag for
every cell; for code cells also the execution_count, plus the condensed
outputs summary when the outputs list is non-empty (the source guards
the outputs key with `if cell.outputs`). -/
def _extract_cell_info (cell : Cell) (idx : Nat) (is_target : Bool) : CellInfo :=
  { index := idx
    cell_type := cell.cell_type
    source := cell.source
    is_target := is_target
    code_info :=
      match cell.cell_type with
      | .code => some
          { execution_count := cell.execution_count
            outputs := if cell.outputs.isEmpty then none
                       else some (cell.outputs.map condenseOutput) }
      | .markdown => none }

/-- The context bundle: total cell count, the resolved window (start
inclusive, stop exclusive; the context_range string of the source shows
start and stop - 1) and the records. -/
structure ContextBundle where
  total_cells : Nat
  start_idx : Nat
  end_idx : Nat
  cells : List CellInfo
deriving Repr, DecidableEq

/-- get_cell_context: validate the target index, clip the window to
max(0, index - size) .. min(len, index + size + 1), build one record per
cell of the window.  Read-only: no save. -/
def get_cell_context (store : Notebook) (cell_index : Int) (context_size : Int) :
    Call (Except IdxError ContextBundle) :=
  match _validate_cell_index store cell_index with
  | .error e => ⟨store, 0, .error e⟩
  | .ok _ =>
    let start_idx : Int := max 0 (cell_index - context_size)
    let end_idx : Int := min (store.cells.length : Int) (cell_index + context_size + 1)
    let idxs := List.range' start_idx.toNat (end_idx.toNat - start_idx.toNat)
    let cells := idxs.map (fun idx =>
      _extract_cell_info (store.cells.getD idx default) idx (decide ((idx : Int) = cell_index)))
    ⟨store, 0, .ok ⟨store.cells.length, start_idx.toNat, end_idx.toNat, cells⟩⟩

/-! ## get_notebook_variables

The four heuristic MULTILINE patterns are embedded as matchers applied at
every line-start position (the positions the ^ anchor admits), with the
non-overlap rule of finditer.  Each matcher returns the length of the
whole match (group 0) and the captured payload.  The star and plus
pieces of these patterns operate on character classes, and in each
pattern every backtrack position except the ones enumerated below is cut
off by the following mandatory literal, so the matchers below compute
the unique match the backtracking engine finds. -/

/-- Python \w over the ASCII range. -/
def isWordC (c : Char) : Bool := c.isAlphanum ∨ c = '_'

/-- Python \s: space, tab, newline, carriage return, vertical tab, form
feed. -/
def isSpaceC (c : Char) : Bool :=
  c = ' ' ∨ c = '\t' ∨ c = '\n' ∨ c = '\r' ∨ c = Char.ofNat 11 ∨ c = Char.ofNat 12

/-- str.strip(). -/
def stripChars (l : List Char) : List Char :=
  ((l.dropWhile isSpaceC).reverse.dropWhile isSpaceC).reverse

/-- The positions the MULTILINE ^ anchor admits: 0 and the position
after every newline. -/
def lineStartsAux : List Char → Nat → List Nat
  | [], _ => []
  | c :: rest, pos =>
    if c = '\n' then (pos + 1) :: lineStartsAux rest (pos + 1)
    else lineStartsAux rest (pos + 1)

def lineStarts (src : List Char) : List Nat := 0 :: lineStartsAux src 0

/-- finditer over a line-anchored pattern: at every line start at or
after the end of the previous match, try the matcher; a match yields its
payload and moves the scan past the matched text. -/
def scanPatGo {α : Type} (m : List Char → Option (Nat × α)) (src : List Char) :
    List Nat → Nat → List α
  | [], _ => []
  | p :: ps, minP =>
    if p < minP then scanPatGo m src ps minP
    else
      match m (src.drop p) with
      | none => scanPatGo m src ps minP
      | some (len, a) => a :: scanPatGo m src ps (p + len)

def scanPat {α : Type} (m : List Char → Option (Nat × α)) (src : List Char) : List α :=
  scanPatGo m src (lineStarts src) 0

/-- Backtrack split of a whitespace run that is followed by nothing: the
plus must keep at least one character and the dot needs a non-newline
character at the split; the engine takes the largest such split. -/
def wsSplitBackAux (ws : List Char) : Nat → Option Nat
  | 0 => none
  | p + 1 =>
    if ws.getD (p + 1) ' ' ≠ '\n' then some (p + 1) else wsSplitBackAux ws p

/-- Match length of the mandatory part of the import pattern, the
literal import, then one or more whitespace characters, then one or more
non-newline characters (the dot-plus, which stops at the end of the
line). -/
def matchImportTail (rem : List Char) : Option Nat :=
  match dropPre ['i','m','p','o','r','t'] rem with
  | none => none
  | some r1 =>
    let ws := r1.takeWhile isSpaceC
    if ws.isEmpty then none
    else
      let r2 := r1.drop ws.length
      if r2.isEmpty then
        match wsSplitBackAux ws (ws.length - 1) with
        | none => none
        | some p => some (6 + p + ((ws.drop p).takeWhile (fun c => c ≠ '\n')).length)
      else
        some (6 + ws.length + (r2.takeWhile (fun c => c ≠ '\n')).length)

/-- The optional from-group of the import pattern: the literal from,
whitespace, one or more word-or-dot characters, whitespace, then the
mandatory import part. -/
def matchImportFrom (rem : List Char) : Option Nat :=
  match dropPre ['f','r','o','m'] rem with
  | none => none
  | some r1 =>
    let ws1 := r1.takeWhile isSpaceC
    if ws1.isEmpty then none
    else
      let r2 := r1.drop ws1.length
      let modname := r2.takeWhile (fun c => isWordC c ∨ c = '.')
      if modname.isEmpty then none
      else
        let r3 := r2.drop modname.length
        let ws2 := r3.takeWhile isSpaceC
        if ws2.isEmpty then none
        else
          match matchImportTail (r3.drop ws2.length) with
          | none => none
          | some tailLen => some (4 + ws1.length + modname.length + ws2.length + tailLen)

/-- The import pattern; the statement recorded is the whole match,
stripped.  The optional group is tried first, as the engine does. -/
def matchImportAt (rem : List Char) : Option (Nat × String) :=
  match matchImportFrom rem with
  | some n => some (n, String.mk (stripChars (rem.take n)))
  | none => (matchImportTail rem).map (fun n => (n, String.mk (stripChars (rem.take n))))

/-- The function pattern: literal def, whitespace, a captured word run,
optional whitespace, an opening parenthesis. -/
def matchDefAt (rem : List Char) : Option (Nat × String) :=
  match dropPre ['d','e','f'] rem with
  | none => none
  | some r1 =>
    let ws1 := r1.takeWhile isSpaceC
    if ws1.isEmpty then none
    else
      let r2 := r1.drop ws1.length
      let name := r2.takeWhile isWordC
      if name.isEmpty then none
      else
        let r3 := r2.drop name.length
        let ws2 := r3.takeWhile isSpaceC
        match r3.drop ws2.length with
        | '(' :: _ => some (3 + ws1.length + name.length + ws2.length + 1, String.mk name)
        | _ => none

/-- The class pattern: literal class, whitespace, a captured word run,
optional whitespace, an opening parenthesis or a colon. -/
def matchClassAt (rem : List Char) : Option (Nat × String) :=
  match dropPre ['c','l','a','s','s'] rem with
  | none => none
  | some r1 =>
    let ws1 := r1.takeWhile isSpaceC
    if ws1.isEmpty then none
    else
      let r2 := r1.drop ws1.length
      let name := r2.takeWhile isWordC
      if name.isEmpty then none
      else
        let r3 := r2.drop name.length
        let ws2 := r3.takeWhile isSpaceC
        match r3.drop ws2.length with
        | c :: _ => if c = '(' ∨ c = ':' then
            some (5 + ws1.length + name.length + ws2.length + 1, String.mk name)
          else none
        | _ => none

/-- Does the dot-star def-or-class negative-lookahead body match at s?
The dot-star stays within the current line; the trailing whitespace
class may also consume the newline that ends the line. -/
def hasWordSp (w : List Char) : List Char → Bool
  | [] => false
  | c :: rest =>
    (match dropPre w (c :: rest) with
     | some (d :: _) => isSpaceC d
     | _ => false) || hasWordSp w rest

def lookaheadBad (s : List Char) : Bool :=
  let line := s.takeWhile (fun c => c ≠ '\n')
  let lineX := line ++ (if line.length < s.length then ['\n'] else [])
  hasWordSp ['d','e','f'] lineX || hasWordSp ['c','l','a','s','s'] lineX

/-- Greedy backtrack over the whitespace run after the equals sign: the
largest number of consumed whitespace characters at which the negative
lookahead is satisfied. -/
def findQAux (r2 : List Char) : Nat → Option Nat
  | 0 => if lookaheadBad r2 then none else some 0
  | q + 1 =>
    if lookaheadBad (r2.drop (q + 1)) then findQAux r2 q else some (q + 1)

/-- The variable pattern: a captured word run at the line start,
optional whitespace, an equals sign, optional whitespace, then the
negative lookahead rejecting def or class ahead. -/
def matchVariableAt (rem : List Char) : Option (Nat × String) :=
  let name := rem.takeWhile isWordC
  if name.isEmpty then none
  else
    let r1 := rem.drop name.length
    let ws1 := r1.takeWhile isSpaceC
    match r1.drop ws1.length with
    | '=' :: r2 =>
      let ws2 := r2.takeWhile isSpaceC
      match findQAux r2 ws2.length with
      | none => none
      | some q => some (name.length + ws1.length + 1 + q, String.mk name)
    | _ => none

/-- The grouped symbol report. -/
structure SymbolReport where
  imports : List (Nat × String)
  vars : List (Nat × String)
  functions : List (Nat × String)
  classes : List (Nat × String)
deriving Repr, DecidableEq

/-- str.startswith("_") of the variable filter: the name begins with an
underscore. -/
def startsUnderscore (s : String) : Bool :=
  match s.toList with
  | c :: _ => c = '_'
  | [] => false

/-- The four scans over one code cell; assignment targets beginning with
an underscore are excluded. -/
def symbolsOfCell (i : Nat) (source : String) : SymbolReport :=
  let src := source.toList
  { imports := (scanPat matchImportAt src).map (fun s => (i, s))
    vars := ((scanPat matchVariableAt src).filter (fun n => ¬ startsUnderscore n)).map
      (fun s => (i, s))
    functions := (scanPat matchDefAt src).map (fun s => (i, s))
    classes := (scanPat matchClassAt src).map (fun s => (i, s)) }

/-- get_notebook_variables: scan only code cells, group the findings by
kind; the Bool is the all-four-empty no-definitions notice.  Read-only:
no save. -/
def get_notebook_variables (store : Notebook) : Call (SymbolReport × Bool) :=
  let reports := store.cells.enum.map (fun ic =>
    match ic.2.cell_type with
    | .code => symbolsOfCell ic.1 ic.2.source
    | .markdown => ⟨[], [], [], []⟩)
  let rep : SymbolReport :=
    ⟨(reports.map (fun r => r.imports)).flatten, (reports.map (fun r => r.vars)).flatten,
     (reports.map (fun r => r.functions)).flatten, (reports.map (fun r => r.classes)).flatten⟩
  let noDefs := rep.imports.isEmpty && rep.vars.isEmpty &&
    rep.functions.isEmpty && rep.classes.isEmpty
  ⟨store, 0, (rep, noDefs)⟩

/-! ## Concrete sample notebooks used by the witnesses and examples -/

/-- A notebook of code cells with the given sources and empty
metadata. -/
def sampleNb (ss : List String) : Notebook := ⟨ss.map new_code_cell, []⟩

/-! ## Theorems -/

/-- C3: cell-index validation fails with IndexOutOfRange exactly when
the index is negative or at least the cell count, reporting the valid
range 0 .. len-1; the insertion-position validation of add_cell fails
with the same error kind exactly when the position is negative or
strictly beyond the cell count (the one-past-end position is allowed,
and a failed call never saves); an omitted position appends the new cell
at position len. -/
theorem c3_index_and_position_validation :
    (∀ (nb : Notebook) (i : Int),
      _validate_cell_index nb i = .error ⟨i, 0, (nb.cells.length : Int) - 1⟩ ↔
        (i < 0 ∨ (nb.cells.length : Int) ≤ i)) ∧
    (∀ (nb : Notebook) (i : Int),
      _validate_cell_index nb i = .ok () ↔ (0 ≤ i ∧ i < (nb.cells.length : Int))) ∧
    (∀ (nb : Notebook) (t : CellType) (s : String) (p : Int),
      ((add_cell nb t s (some p)).out = .error ⟨p, 0, (nb.cells.length : Int)⟩ ↔
        (p < 0 ∨ (nb.cells.length : Int) < p)) ∧
      ((add_cell nb t s (some p)).saves = 0 ↔ (p < 0 ∨ (nb.cells.length : Int) < p))) ∧
    (∀ (nb : Notebook) (t : CellType) (s : String),
      (add_cell nb t s none).out = .ok ((nb.cells.length : Int), nb.cells.length + 1) ∧
      (add_cell nb t s none).store.cells =
        nb.cells ++ [match t with | .code => new_code_cell s | .markdown => new_markdown_cell s] ∧
      (add_cell nb t s none).saves = 1) := by
  refine ⟨fun nb i => ?_, fun nb i => ?_, fun nb t s p => ⟨?_, ?_⟩, fun nb t s => ?_⟩
  · unfold _validate_cell_index
    split
    · rename_i h
      exact ⟨fun _ => h, fun _ => rfl⟩
    · rename_i h
      exact ⟨fun he => (nomatch he), fun hc => absurd hc h⟩
  · unfold _validate_cell_index
    split
    · rename_i h
      exact ⟨fun he => (nomatch he),
        fun hc => False.elim (by rcases h with h' | h' <;> omega)⟩
    · rename_i h
      exact ⟨fun _ => by rcases not_or.mp h with ⟨h1, h2⟩; omega, fun _ => rfl⟩
  · simp only [add_cell]
    split
    · rename_i h
      exact ⟨fun _ => h, fun _ => rfl⟩
    · rename_i h
      exact ⟨fun he => (nomatch he), fun hc => absurd hc h⟩
  · simp only [add_cell]
    split
    · rename_i h
      exact ⟨fun _ => h, fun _ => rfl⟩
    · rename_i h
      show (1 : Nat) = 0 ↔ _
      exact ⟨fun h01 => absurd h01 (by omega), fun hc => absurd hc h⟩
  · simp only [add_cell]
    refine ⟨?_, ?_, trivial⟩
    · simp [Int.toNat_natCast, List.insertIdx_length_self]
    · simp only [Int.toNat_natCast]
      cases t <;> simp [List.insertIdx_length_self]

/-- C2: with both indices validated against the current cell count,
move_cell preserves the total cell count and the moved cell's content
(the cell formerly at from_index is the cell now at to_index), and
follows remove-then-insert semantics: the result is exactly erase at
from_index followed by insert at position to_index of the shortened
list; one save is performed. -/
theorem c2_move_remove_then_insert (nb : Notebook) (fi ti : Int)
    (hf0 : 0 ≤ fi) (hf1 : fi < (nb.cells.length : Int))
    (ht0 : 0 ≤ ti) (ht1 : ti < (nb.cells.length : Int)) :
    (move_cell nb fi ti).store.cells =
      (nb.cells.eraseIdx fi.toNat).insertIdx ti.toNat (nb.cells.getD fi.toNat default) ∧
    (move_cell nb fi ti).store.cells.length = nb.cells.length ∧
    (move_cell nb fi ti).store.cells[ti.toNat]? = nb.cells[fi.toNat]? ∧
    (move_cell nb fi ti).saves = 1 := by
  have hne : ¬ (fi < 0 ∨ fi ≥ (nb.cells.length : Int)) := by omega
  have hne2 : ¬ (ti < 0 ∨ ti ≥ (nb.cells.length : Int)) := by omega
  have hfi : fi.toNat < nb.cells.length := by omega
  have hti : ti.toNat < nb.cells.length := by omega
  have hcells : (move_cell nb fi ti).store.cells =
      (nb.cells.eraseIdx fi.toNat).insertIdx ti.toNat (nb.cells.getD fi.toNat default) := by
    unfold move_cell _validate_cell_index
    rw [if_neg hne, if_neg hne2]
  have hlenE : (nb.cells.eraseIdx fi.toNat).length + 1 = nb.cells.length :=
    List.length_eraseIdx_add_one hfi
  have htiE : ti.toNat ≤ (nb.cells.eraseIdx fi.toNat).length := by omega
  have hlen : (move_cell nb fi ti).store.cells.length = nb.cells.length := by
    rw [hcells, List.length_insertIdx _ _ htiE]
    omega
  have hgd : nb.cells.getD fi.toNat default = nb.cells[fi.toNat] := by
    rw [List.getD_eq_getElem?_getD, List.getElem?_eq_getElem hfi]
    rfl
  refine ⟨hcells, hlen, ?_, ?_⟩
  · have hlen2 : ((nb.cells.eraseIdx fi.toNat).insertIdx ti.toNat
        (nb.cells.getD fi.toNat default)).length = nb.cells.length := by
      rw [List.length_insertIdx _ _ htiE]
      omega
    have h1 : ((nb.cells.eraseIdx fi.toNat).insertIdx ti.toNat
        (nb.cells.getD fi.toNat default))[ti.toNat]? =
          some (nb.cells.getD fi.toNat default) := by
      rw [List.getElem?_eq_getElem (by omega)]
      exact congrArg some (List.getElem_insertIdx_self _ _ _ htiE)
    rw [hcells, h1, hgd, List.getElem?_eq_getElem hfi]
  · unfold move_cell _validate_cell_index
    rw [if_neg hne, if_neg hne2]

/-- Witness for C2 at the documented example: cells A, B, C with
Move(0, 2) yield B, C, A. -/
theorem c2_move_remove_then_insert_witness :
    (move_cell (sampleNb ["A", "B", "C"]) 0 2).store.cells.map Cell.source = ["B", "C", "A"] ∧
    (move_cell (sampleNb ["A", "B", "C"]) 0 2).store.cells.length = 3 ∧
    (move_cell (sampleNb ["A", "B", "C"]) 0 2).saves = 1 := by
  have h := c2_move_remove_then_insert (sampleNb ["A", "B", "C"]) 0 2
    (by decide) (by decide) (by decide) (by decide)
  exact ⟨by rfl, by rw [h.2.1]; rfl, h.2.2.2⟩

/-- C5: for a valid target index and radius at least zero, the context
bundle holds exactly the cells with indices in the clipped window
max(0, target - radius) .. min(len, target + radius + 1) (stop
exclusive), in order; the is_target flag is true exactly on the target
index; each record carries the cell's type and full source; nothing is
saved. -/
theorem c5_context_window (nb : Notebook) (t r : Int)
    (h0 : 0 ≤ t) (h1 : t < (nb.cells.length : Int)) (hr : 0 ≤ r) :
    ∃ b, (get_cell_context nb t r).out = .ok b ∧
      b.start_idx = (max 0 (t - r)).toNat ∧
      b.end_idx = (min (nb.cells.length : Int) (t + r + 1)).toNat ∧
      b.total_cells = nb.cells.length ∧
      b.cells.map CellInfo.index = List.range' b.start_idx (b.end_idx - b.start_idx) ∧
      (∀ ci ∈ b.cells, (ci.is_target = true ↔ (ci.index : Int) = t)) ∧
      (∀ ci ∈ b.cells, ci.cell_type = (nb.cells.getD ci.index default).cell_type ∧
        ci.source = (nb.cells.getD ci.index default).source) ∧
      (get_cell_context nb t r).saves = 0 := by
  have hv : ¬ (t < 0 ∨ t ≥ (nb.cells.length : Int)) := not_or.mpr ⟨by omega, by omega⟩
  have hout : (get_cell_context nb t r) = ⟨nb, 0, .ok
      ⟨nb.cells.length, (max 0 (t - r)).toNat, (min (nb.cells.length : Int) (t + r + 1)).toNat,
        (List.range' (max 0 (t - r)).toNat
            ((min (nb.cells.length : Int) (t + r + 1)).toNat - (max 0 (t - r)).toNat)).map
          (fun idx => _extract_cell_info (nb.cells.getD idx default) idx
            (decide ((idx : Int) = t)))⟩⟩ := by
    unfold get_cell_context _validate_cell_index
    rw [if_neg hv]
  refine ⟨_, by rw [hout], rfl, rfl, rfl, ?_, ?_, ?_, by rw [hout]⟩
  · show (List.map _ (List.range' _ _)).map _ = _
    rw [List.map_map]
    exact List.map_congr_left (fun idx _ => rfl) |>.trans (List.map_id _)
  · intro ci hci
    obtain ⟨idx, _, rfl⟩ := List.mem_map.mp hci
    show decide ((idx : Int) = t) = true ↔ _
    simp [_extract_cell_info]
  · intro ci hci
    obtain ⟨idx, _, rfl⟩ := List.mem_map.mp hci
    exact ⟨rfl, rfl⟩

set_option maxRecDepth 100000 in
/-- Witness for C5 at the documented examples: on a 5-cell document,
index 2 with radius 1 yields cells 1, 2, 3 with is_target only at 2, and
index 0 with radius 2 yields cells 0, 1, 2. -/
theorem c5_context_window_witness :
    ((get_cell_context (sampleNb ["a", "b", "c", "d", "e"]) 2 1).out.toOption.map
      (fun b => b.cells.map (fun ci => (ci.index, ci.is_target)))) =
        some [(1, false), (2, true), (3, false)] ∧
    ((get_cell_context (sampleNb ["a", "b", "c", "d", "e"]) 0 2).out.toOption.map
      (fun b => b.cells.map (fun ci => (ci.index, ci.is_target)))) =
        some [(0, true), (1, false), (2, false)] ∧
    (get_cell_context (sampleNb ["a", "b", "c", "d", "e"]) 2 1).saves = 0 := by
  obtain ⟨b, hb⟩ := c5_context_window (sampleNb ["a", "b", "c", "d", "e"]) 2 1
    (by decide) (by decide) (by decide)
  exact ⟨by decide, by decide, hb.2.2.2.2.2.2.2⟩

/-- C6 counterexample: a code cell with an empty outputs list gets a
context record with the execution_count but no outputs summary at all
(the source adds the outputs key only when the list is non-empty), so
not every code cell's record carries a condensed outputs summary. -/
theorem c6_counterexample_no_outputs_key :
    (Cell.mk .code "x" [] [] (some 3)).cell_type = .code ∧
    (_extract_cell_info (Cell.mk .code "x" [] [] (some 3)) 0 false).code_info =
      some ⟨some 3, none⟩ :=
  ⟨rfl, rfl⟩

/-- Helper: the truncation keeps a short text unchanged. -/
theorem truncate200_of_le (t : String) (h : t.length ≤ 200) : truncate200 t = t := by
  unfold truncate200
  rw [if_neg (by omega), String.take_eq]
  obtain ⟨data⟩ := t
  show String.mk (data.take 200 ++ []) = String.mk data
  rw [List.append_nil, List.take_of_length_le h]

/-- Helper: the truncation of a long text is the 200-character prefix
with the ellipsis. -/
theorem truncate200_of_gt (t : String) (h : 200 < t.length) :
    truncate200 t = t.take 200 ++ "..." := by
  unfold truncate200
  rw [if_pos (by omega)]

/-- C6 amended: every code cell's record carries its execution_count,
and — when the cell has at least one output — a condensed outputs
summary (a cell with no outputs carries no summary); the summary
condenses a stream output to its text truncated to 200 characters with
the ellipsis only when longer, an execute_result or display_data output
to its text/plain entry (a list of strings joined into one) truncated
the same way, and an error output to ename and evalue only, with no
traceback. -/
theorem c6_amended_output_condensation :
    (∀ (cell : Cell) (idx : Nat) (tgt : Bool), cell.cell_type = .code →
      ∃ ci, (_extract_cell_info cell idx tgt).code_info = some ci ∧
        ci.execution_count = cell.execution_count ∧
        (cell.outputs ≠ [] → ci.outputs = some (cell.outputs.map condenseOutput)) ∧
        (cell.outputs = [] → ci.outputs = none)) ∧
    (∀ name text, text.length ≤ 200 →
      condenseOutput (.stream name text) = ⟨"stream", some text, none, none⟩) ∧
    (∀ name text, 200 < text.length →
      condenseOutput (.stream name text) =
        ⟨"stream", some (text.take 200 ++ "..."), none, none⟩) ∧
    (∀ data ec mv, data.lookup "text/plain" = some mv →
      condenseOutput (.execute_result data ec) =
        ⟨"execute_result", some (truncate200 (mimeText mv)), none, none⟩) ∧
    (∀ data ec, data.lookup "text/plain" = none →
      condenseOutput (.execute_result data ec) = ⟨"execute_result", none, none, none⟩) ∧
    (∀ data mv, data.lookup "text/plain" = some mv →
      condenseOutput (.display_data data) =
        ⟨"display_data", some (truncate200 (mimeText mv)), none, none⟩) ∧
    (∀ l, mimeText (.list l) = String.join l) ∧
    (∀ en ev tb, condenseOutput (.error en ev tb) = ⟨"error", none, some en, some ev⟩) := by
  refine ⟨?_, ?_, ?_, ?_, ?_, ?_, fun l => rfl, fun en ev tb => rfl⟩
  · rintro ⟨ct, src, md, outs, ec⟩ idx tgt h
    cases h
    refine ⟨_, rfl, rfl, fun hne => ?_, fun he => ?_⟩
    · show (if outs.isEmpty then none else some (outs.map condenseOutput)) = _
      rw [if_neg (by simpa using hne)]
    · show (if outs.isEmpty then none else some (outs.map condenseOutput)) = _
      rw [if_pos (by simpa using he)]
  · intro name text h
    show OutputInfo.mk "stream" (some (truncate200 text)) none none = _
    rw [truncate200_of_le text h]
  · intro name text h
    show OutputInfo.mk "stream" (some (truncate200 text)) none none = _
    rw [truncate200_of_gt text h]
  · intro data ec mv h
    show (match data.lookup "text/plain" with
      | some mv => OutputInfo.mk "execute_result" (some (truncate200 (mimeText mv))) none none
      | none => OutputInfo.mk "execute_result" none none none) = _
    rw [h]
  · intro data ec h
    show (match data.lookup "text/plain" with
      | some mv => OutputInfo.mk "execute_result" (some (truncate200 (mimeText mv))) none none
      | none => OutputInfo.mk "execute_result" none none none) = _
    rw [h]
  · intro data mv h
    show (match data.lookup "text/plain" with
      | some mv => OutputInfo.mk "display_data" (some (truncate200 (mimeText mv))) none none
      | none => OutputInfo.mk "display_data" none none none) = _
    rw [h]

set_option maxRecDepth 100000 in
/-- Witness for C6 amended at a concrete code cell and its outputs. -/
theorem c6_amended_output_condensation_witness :
    (_extract_cell_info (Cell.mk .code "x" [] [.stream "stdout" "hi", .error "E" "v" ["tb"]]
        (some 1)) 4 true).code_info =
      some ⟨some 1, some [⟨"stream", some "hi", none, none⟩,
        ⟨"error", none, some "E", some "v"⟩]⟩ := by
  obtain ⟨ci, h1, h2, h3, _⟩ := c6_amended_output_condensation.1
    (Cell.mk .code "x" [] [.stream "stdout" "hi", .error "E" "v" ["tb"]] (some 1)) 4 true rfl
  obtain ⟨cie, cio⟩ := ci
  rw [h1]
  have h2' : cie = some 1 := h2
  have h3' : cio = some (List.map condenseOutput
      [.stream "stdout" "hi", .error "E" "v" ["tb"]]) := h3 (by simp)
  rw [h2', h3']
  rfl

/-- Helper: a dict assignment is visible to a subsequent lookup of the
same key. -/
theorem lookup_setKey (k : String) (v : JVal) :
    ∀ (m : List (String × JVal)), (setKey m k v).lookup k = some v := by
  intro m
  induction m with
  | nil => simp [setKey, List.lookup]
  | cons hd tl ih =>
    obtain ⟨a, b⟩ := hd
    by_cases h : a = k
    · subst h
      rw [setKey, if_pos (by simp)]
      show List.lookup a ((if a = a then (a, v) else (a, b)) :: _) = some v
      rw [if_pos rfl]
      simp [List.lookup]
    · have hka : (k == a) = false := beq_eq_false_iff_ne.mpr (Ne.symm h)
      by_cases h2 : (tl.any fun p => decide (p.1 = k)) = true
      · rw [setKey, if_pos (by simp only [List.any_cons, Bool.or_eq_true]; exact Or.inr h2)]
        show List.lookup k ((if a = k then (k, v) else (a, b)) ::
          tl.map (fun p => if p.1 = k then (k, v) else p)) = some v
        rw [if_neg h]
        show (match k == a with
          | true => some b
          | false => List.lookup k (tl.map (fun p => if p.1 = k then (k, v) else p))) = some v
        rw [hka]
        have htl : setKey tl k v = tl.map (fun p => if p.1 = k then (k, v) else p) := by
          rw [setKey, if_pos h2]
        rw [← htl]
        exact ih
      · rw [setKey, if_neg (by
          simp only [List.any_cons, Bool.or_eq_true, decide_eq_true_eq]
          rintro (h' | h')
          · exact h h'
          · exact h2 h')]
        show List.lookup k ((a, b) :: (tl ++ [(k, v)])) = some v
        show (match k == a with
          | true => some b
          | false => List.lookup k (tl ++ [(k, v)])) = some v
        rw [hka]
        have htl : setKey tl k v = tl ++ [(k, v)] := by
          rw [setKey, if_neg h2]
        rw [← htl]
        exact ih

/-- Helper: modifying the element at an index is visible at that
index. -/
theorem getElem?_modifyAt {α : Type} (f : α → α) :
    ∀ (l : List α) (i : Nat), (modifyAt i f l)[i]? = (l[i]?).map f := by
  intro l
  induction l with
  | nil => intro i; simp [modifyAt]
  | cons hd tl ih =>
    intro i
    cases i with
    | zero => simp [modifyAt]
    | succ j => simpa [modifyAt] using ih j

/-- C9: a metadata set operation (document- or cell-level) parses the
raw value as JSON and stores the parsed value under the key (overwriting
any existing entry); if parsing fails the literal text is stored
silently instead; in particular the raw texts with and without the
surrounding JSON quotes both store the same string title. -/
theorem c9_metadata_parse_fallback :
    (∀ (nb : Notebook) (k v : String),
      (update_notebook_metadata nb k v).store.metadata.lookup k =
        some ((json_loads v).getD (.str v)) ∧
      (update_notebook_metadata nb k v).saves = 1) ∧
    (∀ (nb : Notebook) (i : Int) (k v : String), 0 ≤ i → i < (nb.cells.length : Int) →
      ∃ c, (update_cell_metadata nb i k v).store.cells[i.toNat]? = some c ∧
        c.metadata.lookup k = some ((json_loads v).getD (.str v)) ∧
        (update_cell_metadata nb i k v).saves = 1) ∧
    json_loads "\"title\"" = some (.str "title") ∧
    json_loads "title" = none ∧
    (update_notebook_metadata ⟨[], []⟩ "k" "\"title\"").store.metadata.lookup "k" =
      some (.str "title") ∧
    (update_notebook_metadata ⟨[], []⟩ "k" "title").store.metadata.lookup "k" =
      some (.str "title") := by
  have hdocred : ∀ (nb : Notebook) (k v : String), update_notebook_metadata nb k v =
      ⟨⟨nb.cells, setKey nb.metadata k ((json_loads v).getD (.str v))⟩, 1,
        (json_loads v).getD (.str v)⟩ := by
    intro nb k v
    unfold update_notebook_metadata
    cases hj : json_loads v <;> rfl
  have hdoc : ∀ (nb : Notebook) (k v : String),
      (update_notebook_metadata nb k v).store.metadata.lookup k =
        some ((json_loads v).getD (.str v)) ∧
      (update_notebook_metadata nb k v).saves = 1 := by
    intro nb k v
    rw [hdocred]
    exact ⟨lookup_setKey _ _ _, rfl⟩
  refine ⟨hdoc, ?_, by rfl, by rfl, ?_, ?_⟩
  · intro nb i k v h0 h1
    have hv : ¬ (i < 0 ∨ i ≥ (nb.cells.length : Int)) := not_or.mpr ⟨by omega, by omega⟩
    have hred : update_cell_metadata nb i k v = ⟨⟨modifyAt i.toNat
        (fun c => { c with
          metadata := setKey c.metadata k ((json_loads v).getD (.str v)) }) nb.cells,
        nb.metadata⟩, 1, .ok ((json_loads v).getD (.str v))⟩ := by
      unfold update_cell_metadata _validate_cell_index
      rw [if_neg hv]
      cases hj : json_loads v <;> rfl
    have hi : i.toNat < nb.cells.length := by omega
    have hcell : nb.cells[i.toNat]? = some nb.cells[i.toNat] :=
      List.getElem?_eq_getElem hi
    refine ⟨{ nb.cells[i.toNat] with
        metadata := setKey nb.cells[i.toNat].metadata k ((json_loads v).getD (.str v)) },
      ?_, ?_, by rw [hred]⟩
    · rw [hred]
      show (modifyAt i.toNat _ nb.cells)[i.toNat]? = _
      rw [getElem?_modifyAt, hcell]
      rfl
    · exact lookup_setKey _ _ _
  · exact (hdoc ⟨[], []⟩ "k" "\"title\"").1
  · exact (hdoc ⟨[], []⟩ "k" "title").1

/-- C10: in literal mode only the search pattern is escaped; the
replacement is handed to regex substitution unescaped, so a replacement
of two backslash characters writes a single backslash into the matched
cell (not the two characters of the replacement text), and a group
reference expands to the matched text. -/
theorem c10_replacement_template_interpreted :
    (replace_in_notebook (sampleNb ["a"]) "a" "\\\\" false true false).store.cells.map
      Cell.source = ["\\"] ∧
    "\\" ≠ "\\\\" ∧
    (replace_in_notebook (sampleNb ["a"]) "a" "\\\\" false true false).saves = 1 ∧
    parseRx (reEscape "a".toList) = .ok [.Lit 'a'] ∧
    (rsub true [.Lit 'a'] "\\g<0>X".toList "abc".toList).map String.mk = some "aXbc" :=
  ⟨by rfl, by decide, by rfl, by rfl, by rfl⟩

/-- Helper: an item of one of the four symbol lists always points at a
code cell of the notebook (markdown cells contribute nothing and code
cells tag their own index). -/
theorem symbolsOnlyCode (nb : Notebook) (sel : SymbolReport → List (Nat × String))
    (hempty : sel ⟨[], [], [], []⟩ = [])
    (htag : ∀ (j : Nat) (src : String) (item : Nat × String),
      item ∈ sel (symbolsOfCell j src) → item.1 = j)
    (item : Nat × String)
    (hmem : item ∈ ((nb.cells.enum.map (fun ic =>
      match ic.2.cell_type with
      | .code => symbolsOfCell ic.1 ic.2.source
      | .markdown => ⟨[], [], [], []⟩)).map sel).flatten) :
    ∃ c, nb.cells[item.1]? = some c ∧ c.cell_type = .code := by
  obtain ⟨l, hl, hil⟩ := List.mem_flatten.mp hmem
  obtain ⟨rep, hrep, rfl⟩ := List.mem_map.mp hl
  obtain ⟨⟨j, c⟩, hjc, rfl⟩ := List.mem_map.mp hrep
  have hjc' : nb.cells[j]? = some c := List.mk_mem_enum_iff_getElem?.mp hjc
  cases hct : c.cell_type with
  | markdown =>
    rw [hct] at hil
    rw [hempty] at hil
    exact absurd hil (List.not_mem_nil _)
  | code =>
    rw [hct] at hil
    rw [htag j c.source item hil]
    exact ⟨c, hjc', hct⟩

/-- C7: symbol extraction scans only code cells (every reported item
points at a code cell); on the documented example cell it reports
exactly one import, variable x (excluding the underscore name), function
foo and class Bar, with the definitions found on every line, not only
the first; a document in which all four categories are empty reports the
no-definitions notice, and the all-empty condition is exactly what
triggers that notice. -/
theorem c7_symbol_extraction :
    (∀ (nb : Notebook) (item : Nat × String),
      (item ∈ (get_notebook_variables nb).out.1.imports ∨
       item ∈ (get_notebook_variables nb).out.1.vars ∨
       item ∈ (get_notebook_variables nb).out.1.functions ∨
       item ∈ (get_notebook_variables nb).out.1.classes) →
      ∃ c, nb.cells[item.1]? = some c ∧ c.cell_type = .code) ∧
    (get_notebook_variables (sampleNb
      ["import os\ndef foo():\n    pass\nclass Bar:\n    pass\nx = 5\n_y = 6"])).out =
      (⟨[(0, "import os")], [(0, "x")], [(0, "foo")], [(0, "Bar")]⟩, false) ∧
    (∀ (nb : Notebook),
      ((get_notebook_variables nb).out.1.imports = [] ∧
       (get_notebook_variables nb).out.1.vars = [] ∧
       (get_notebook_variables nb).out.1.functions = [] ∧
       (get_notebook_variables nb).out.1.classes = []) →
      (get_notebook_variables nb).out.2 = true) ∧
    (get_notebook_variables (sampleNb [""])).out.2 = true ∧
    (get_notebook_variables ⟨[new_markdown_cell "import os\nx = 5"], []⟩).out.2 = true := by
  refine ⟨?_, by rfl, ?_, by rfl, by rfl⟩
  · intro nb item hmem
    rcases hmem with h | h | h | h
    · exact symbolsOnlyCode nb (fun r => r.imports) rfl
        (fun j src it hit => by obtain ⟨s, _, rfl⟩ := List.mem_map.mp hit; rfl) item h
    · exact symbolsOnlyCode nb (fun r => r.vars) rfl
        (fun j src it hit => by obtain ⟨s, _, rfl⟩ := List.mem_map.mp hit; rfl) item h
    · exact symbolsOnlyCode nb (fun r => r.functions) rfl
        (fun j src it hit => by obtain ⟨s, _, rfl⟩ := List.mem_map.mp hit; rfl) item h
    · exact symbolsOnlyCode nb (fun r => r.classes) rfl
        (fun j src it hit => by obtain ⟨s, _, rfl⟩ := List.mem_map.mp hit; rfl) item h
  · intro nb h
    show ((get_notebook_variables nb).out.1.imports.isEmpty &&
      (get_notebook_variables nb).out.1.vars.isEmpty &&
      (get_notebook_variables nb).out.1.functions.isEmpty &&
      (get_notebook_variables nb).out.1.classes.isEmpty) = true
    rw [h.1, h.2.1, h.2.2.1, h.2.2.2]
    rfl

/-- Helper: parsing an escaped character yields its literal token. -/
theorem parseRxA_escaped (b : Bool) (c : Char) (l : List Char)
    (h1 : c.isDigit = false) (h2 : patEscChar c = none)
    (h3 : c ∉ patClassLetters) (h4 : c.isAlpha = false) :
    parseRxA b ('\\' :: c :: l) = rxCons (.Lit c) (parseRxA true l) := by
  simp [parseRxA, h1, h2, h3, h4]

/-- Helper: parsing a plain non-special character yields its literal
token. -/
theorem parseRxA_plain (b : Bool) (c : Char) (l : List Char)
    (h1 : c ≠ '\\') (h2 : c ≠ '.') (h3 : ¬ (c = '*' ∨ c = '+' ∨ c = '?'))
    (h4 : ¬ (c = '(' ∨ c = '[' ∨ c = '{' ∨ c = '|' ∨ c = '^' ∨ c = '$'))
    (h5 : c ≠ ')') :
    parseRxA b (c :: l) = rxCons (.Lit c) (parseRxA true l) := by
  rw [parseRxA.eq_def]
  simp [h1, h2, h3, h4, h5]

/-- Helper: every character re.escape escapes parses as a literal after
its backslash. -/
theorem reSpecial_props : ∀ c ∈ reSpecialChars, c.isDigit = false ∧ patEscChar c = none ∧
    c ∉ patClassLetters ∧ c.isAlpha = false := by decide

/-- Helper: an escaped pattern compiles, to exactly the literal token
sequence of the original pattern. -/
theorem parseRx_reEscape (l : List Char) : ∀ b, parseRxA b (reEscape l) = .ok (l.map RTok.Lit) := by
  induction l with
  | nil => intro b; rfl
  | cons c rest ih =>
    intro b
    have hre : reEscape (c :: rest) =
        (if reSpecial c then ['\\', c] else [c]) ++ reEscape rest := by
      simp [reEscape]
    rw [hre]
    by_cases hs : reSpecial c = true
    · rw [if_pos hs]
      obtain ⟨h1, h2, h3, h4⟩ := reSpecial_props c (of_decide_eq_true hs)
      show parseRxA b ('\\' :: c :: reEscape rest) = _
      rw [parseRxA_escaped b c _ h1 h2 h3 h4, ih true]
      rfl
    · rw [if_neg hs]
      have hmem : c ∉ reSpecialChars := fun hm => hs (decide_eq_true hm)
      have h1 : c ≠ '\\' := fun he => hmem (by rw [he]; decide)
      have h2 : c ≠ '.' := fun he => hmem (by rw [he]; decide)
      have h3 : ¬ (c = '*' ∨ c = '+' ∨ c = '?') := by
        rintro (h | h | h) <;> exact hmem (by rw [h]; decide)
      have h4 : ¬ (c = '(' ∨ c = '[' ∨ c = '{' ∨ c = '|' ∨ c = '^' ∨ c = '$') := by
        rintro (h | h | h | h | h | h) <;> exact hmem (by rw [h]; decide)
      have h5 : c ≠ ')' := fun he => hmem (by rw [he]; decide)
      show parseRxA b (c :: reEscape rest) = _
      rw [parseRxA_plain b c _ h1 h2 h3 h4 h5, ih true]
      rfl

/-- Helper: an all-literal token sequence matches a prefix exactly when
the pattern characters are that prefix. -/
theorem tokensMatch_lit : ∀ (p s : List Char),
    tokensMatch true (p.map RTok.Lit) s = true ↔ p <+: s := by
  intro p
  induction p with
  | nil => intro s; simp [tokensMatch, List.nil_prefix]
  | cons c p' ih =>
    intro s
    cases s with
    | nil =>
      show tokensMatch true (.Lit c :: p'.map RTok.Lit) [] = true ↔ _
      simp [tokensMatch]
    | cons d s' =>
      show (tokMatch true (.Lit c) d && tokensMatch true (p'.map RTok.Lit) s') = true ↔ _
      rw [Bool.and_eq_true, List.cons_prefix_cons]
      simp [tokMatch, charEqCI, ih]

/-- Helper: soundness of the finditer scan: a reported position is at or
after the scan start and the tokens match there. -/
theorem scanMA_sound (cs : Bool) (t : RTok) (ts : List RTok) :
    ∀ (s : List Char) (pos skip q : Nat), q ∈ scanMA cs t ts s pos skip →
      pos ≤ q ∧ tokensMatch cs (t :: ts) (s.drop (q - pos)) = true := by
  intro s
  induction s with
  | nil => intro pos skip q hq; simp [scanMA] at hq
  | cons c rest ih =>
    intro pos skip q hq
    cases skip with
    | succ k =>
      simp only [scanMA] at hq
      obtain ⟨hle, hm⟩ := ih (pos + 1) k q hq
      refine ⟨by omega, ?_⟩
      rw [show q - pos = (q - (pos + 1)) + 1 from by omega]
      exact hm
    | zero =>
      simp only [scanMA] at hq
      by_cases hm : tokensMatch cs (t :: ts) (c :: rest) = true
      · rw [if_pos hm] at hq
        rcases List.mem_cons.mp hq with rfl | hq'
        · refine ⟨le_refl _, ?_⟩
          rw [Nat.sub_self]
          exact hm
        · obtain ⟨hle, hmm⟩ := ih (pos + 1) ts.length q hq'
          refine ⟨by omega, ?_⟩
          rw [show q - pos = (q - (pos + 1)) + 1 from by omega]
          exact hmm
      · rw [if_neg hm] at hq
        obtain ⟨hle, hmm⟩ := ih (pos + 1) 0 q hq
        refine ⟨by omega, ?_⟩
        rw [show q - pos = (q - (pos + 1)) + 1 from by omega]
        exact hmm

/-- Helper: completeness of the finditer scan: an empty result means the
tokens match at no position beyond the pending skip. -/
theorem scanMA_complete (cs : Bool) (t : RTok) (ts : List RTok) :
    ∀ (s : List Char) (pos skip : Nat), scanMA cs t ts s pos skip = [] →
      ∀ k, skip ≤ k → tokensMatch cs (t :: ts) (s.drop k) = false := by
  intro s
  induction s with
  | nil =>
    intro pos skip _ k _
    rw [List.drop_nil]
    rfl
  | cons c rest ih =>
    intro pos skip h k hk
    cases skip with
    | succ j =>
      simp only [scanMA] at h
      cases k with
      | zero => omega
      | succ m => exact ih (pos + 1) j h m (by omega)
    | zero =>
      simp only [scanMA] at h
      by_cases hm : tokensMatch cs (t :: ts) (c :: rest) = true
      · rw [if_pos hm] at h
        exact absurd h (by simp)
      · rw [if_neg hm] at h
        cases k with
        | zero =>
          rw [List.drop_zero]
          exact Bool.eq_false_iff.mpr hm
        | succ m => exact ih (pos + 1) 0 h m (by omega)

/-- Helper: the text under any reported match of an all-literal scan is
exactly the pattern. -/
theorem scanMatches_lit_text (p : List Char) (s : List Char) (q : Nat)
    (hq : q ∈ scanMatches true (p.map RTok.Lit) s) :
    (s.drop q).take p.length = p := by
  cases p with
  | nil => rfl
  | cons c p' =>
    have := scanMA_sound true (.Lit c) (p'.map RTok.Lit) s 0 0 q hq
    have hpre : (c :: p') <+: s.drop q := by
      have h2 := this.2
      rw [Nat.sub_zero] at h2
      exact (tokensMatch_lit (c :: p') (s.drop q)).mp h2
    exact (List.prefix_iff_eq_take.mp hpre).symm

/-- Helper: with useRegex false the search is the scan of the literal
token sequence of the escaped pattern. -/
theorem search_notebook_literal (nb : Notebook) (p : String) (cs : Bool) :
    search_notebook nb p false cs = searchScan nb cs (p.toList.map RTok.Lit) := by
  show (match parseRx (reEscape p.toList) with
    | RxParse.err => (⟨nb, 0, .patternError⟩ : Call SearchOut)
    | RxParse.unsupported => ⟨nb, 0, .unmodeled⟩
    | RxParse.ok rx => searchScan nb cs rx) = _
  rw [show parseRx (reEscape p.toList) = .ok (p.toList.map RTok.Lit) from
    parseRx_reEscape p.toList false]

/-- C4: with useRegex false the pattern is escaped so every character is
literal: the escaped pattern always compiles, to the literal token
sequence; every match the search reports is the exact pattern string;
when the search reports no matches the pattern occurs nowhere in any
cell; and on the documented example, pattern a.b in literal mode does
not match the text axb (while the same pattern as a regex does, and the
literal text a.b is matched in literal mode). -/
theorem c4_literal_search_escapes :
    (∀ (p : String), parseRx (reEscape p.toList) = .ok (p.toList.map RTok.Lit)) ∧
    (∀ (p : String) (nb : Notebook) (total : Nat)
      (cells : List (Nat × CellType × List (String × String))),
      (search_notebook nb p false true).out = .found total cells →
      ∀ entry ∈ cells, ∀ hit ∈ entry.2.2, hit.2 = p) ∧
    (∀ (p : String) (nb : Notebook) (c : Cell), p.toList ≠ [] →
      (search_notebook nb p false true).out = .noMatches → c ∈ nb.cells →
      ∀ k, ¬ (p.toList <+: c.source.toList.drop k)) ∧
    (search_notebook (sampleNb ["axb"]) "a.b" false true).out = .noMatches ∧
    (search_notebook (sampleNb ["a.b"]) "a.b" false true).out =
      .found 1 [(0, .code, [("a.b", "a.b")])] ∧
    (search_notebook (sampleNb ["axb"]) "a.b" true true).out =
      .found 1 [(0, .code, [("axb", "axb")])] := by
  refine ⟨fun p => parseRx_reEscape p.toList false, ?_, ?_, by rfl, by rfl, by rfl⟩
  · intro p nb total cells hout entry hentry hit hhit
    rw [search_notebook_literal, searchScan] at hout
    by_cases h0 : ((searchPerCell true (p.toList.map RTok.Lit) nb.cells).map
        (fun r => r.2.2.length)).sum = 0
    · rw [if_pos h0] at hout
      exact absurd hout (by simp)
    · rw [if_neg h0] at hout
      have hout' : SearchOut.found _ _ = SearchOut.found total cells := hout
      injection hout' with h1 h2
      subst h2
      have hentry' := (List.mem_filter.mp hentry).1
      obtain ⟨⟨i, cell⟩, _, rfl⟩ := List.mem_map.mp hentry'
      obtain ⟨st, hst, rfl⟩ := List.mem_map.mp hhit
      show matchedText cell.source.toList st (p.toList.map RTok.Lit).length = p
      unfold matchedText
      rw [List.length_map, scanMatches_lit_text p.toList _ st hst]
      cases p
      rfl
  · intro p nb c hne hout hc k
    rw [search_notebook_literal, searchScan] at hout
    by_cases h0 : ((searchPerCell true (p.toList.map RTok.Lit) nb.cells).map
        (fun r => r.2.2.length)).sum = 0
    case neg =>
      rw [if_neg h0] at hout
      exact absurd hout (by simp)
    case pos =>
    rw [if_pos h0] at hout
    obtain ⟨i, hi⟩ := List.mem_iff_getElem?.mp hc
    have henum : (i, c) ∈ nb.cells.enum := List.mk_mem_enum_iff_getElem?.mpr hi
    have hmem : (i, c.cell_type, (scanMatches true (p.toList.map RTok.Lit)
        c.source.toList).map (fun st =>
          (matchContext c.source.toList st (p.toList.map RTok.Lit).length,
           matchedText c.source.toList st (p.toList.map RTok.Lit).length))) ∈
        searchPerCell true (p.toList.map RTok.Lit) nb.cells :=
      List.mem_map.mpr ⟨(i, c), henum, rfl⟩
    have hlen0 : ((scanMatches true (p.toList.map RTok.Lit) c.source.toList).map
        (fun st => (matchContext c.source.toList st (p.toList.map RTok.Lit).length,
          matchedText c.source.toList st (p.toList.map RTok.Lit).length))).length = 0 :=
      List.sum_eq_zero_iff.mp h0 _ (List.mem_map.mpr ⟨_, hmem, rfl⟩)
    have hms : scanMatches true (p.toList.map RTok.Lit) c.source.toList = [] := by
      rw [List.length_map] at hlen0
      exact List.length_eq_zero.mp hlen0
    intro hpre
    obtain ⟨hd, tl, hp⟩ : ∃ hd tl, p.toList = hd :: tl := by
      cases hp : p.toList with
      | nil => exact absurd hp hne
      | cons a b => exact ⟨a, b, rfl⟩
    rw [hp] at hms hpre
    have hfalse := scanMA_complete true (.Lit hd) (tl.map RTok.Lit) c.source.toList 0 0 hms k
      (by omega)
    have htrue := (tokensMatch_lit (hd :: tl) (c.source.toList.drop k)).mpr hpre
    rw [List.map_cons] at htrue
    rw [htrue] at hfalse
    exact absurd hfalse (by simp)

/-- C8: every mutating operation rejects an out-of-range index or
insertion position before any mutation or save, so the stored notebook
is untouched and no save is performed; a replace whose pattern fails to
compile reports the pattern error without mutating or saving; a search
never mutates or saves at all. -/
theorem c8_validation_before_mutation :
    (∀ (nb : Notebook) (t : CellType) (s : String) (p : Int),
      (p < 0 ∨ (nb.cells.length : Int) < p) →
        (add_cell nb t s (some p)).store = nb ∧ (add_cell nb t s (some p)).saves = 0) ∧
    (∀ (nb : Notebook) (i : Int) (s : String),
      (i < 0 ∨ (nb.cells.length : Int) ≤ i) →
        (update_cell nb i s).store = nb ∧ (update_cell nb i s).saves = 0) ∧
    (∀ (nb : Notebook) (i : Int), (i < 0 ∨ (nb.cells.length : Int) ≤ i) →
        (delete_cell nb i).store = nb ∧ (delete_cell nb i).saves = 0) ∧
    (∀ (nb : Notebook) (fi ti : Int),
      (fi < 0 ∨ (nb.cells.length : Int) ≤ fi ∨ ti < 0 ∨ (nb.cells.length : Int) ≤ ti) →
        (move_cell nb fi ti).store = nb ∧ (move_cell nb fi ti).saves = 0) ∧
    (∀ (nb : Notebook) (i : Int), (i < 0 ∨ (nb.cells.length : Int) ≤ i) →
        (duplicate_cell nb i).store = nb ∧ (duplicate_cell nb i).saves = 0) ∧
    (∀ (nb : Notebook) (i : Int) (t : CellType), (i < 0 ∨ (nb.cells.length : Int) ≤ i) →
        (change_cell_type nb i t).store = nb ∧ (change_cell_type nb i t).saves = 0) ∧
    (∀ (nb : Notebook) (i : Int) (k v : String), (i < 0 ∨ (nb.cells.length : Int) ≤ i) →
        (update_cell_metadata nb i k v).store = nb ∧
        (update_cell_metadata nb i k v).saves = 0) ∧
    (∀ (nb : Notebook) (pat repl : String) (ur cs po : Bool),
      parseRx (if ur then pat.toList else reEscape pat.toList) = .err →
        (replace_in_notebook nb pat repl ur cs po).store = nb ∧
        (replace_in_notebook nb pat repl ur cs po).saves = 0 ∧
        (replace_in_notebook nb pat repl ur cs po).out = .patternError) ∧
    (∀ (nb : Notebook) (pat : String) (ur cs : Bool),
      (search_notebook nb pat ur cs).store = nb ∧ (search_notebook nb pat ur cs).saves = 0) := by
  refine ⟨?_, ?_, ?_, ?_, ?_, ?_, ?_, ?_, ?_⟩
  · intro nb t s p h
    simp only [add_cell]
    rw [if_pos h]
    exact ⟨rfl, rfl⟩
  · intro nb i s h
    unfold update_cell _validate_cell_index
    rw [if_pos h]
    exact ⟨rfl, rfl⟩
  · intro nb i h
    unfold delete_cell _validate_cell_index
    rw [if_pos h]
    exact ⟨rfl, rfl⟩
  · intro nb fi ti h
    unfold move_cell _validate_cell_index
    by_cases hf : (fi < 0 ∨ fi ≥ (nb.cells.length : Int))
    · rw [if_pos hf]
      exact ⟨rfl, rfl⟩
    · rw [if_neg hf]
      have hti : (ti < 0 ∨ ti ≥ (nb.cells.length : Int)) := by
        rcases h with h | h | h | h
        exacts [absurd (Or.inl h) hf, absurd (Or.inr h) hf, Or.inl h, Or.inr h]
      rw [if_pos hti]
      exact ⟨rfl, rfl⟩
  · intro nb i h
    unfold duplicate_cell _validate_cell_index
    rw [if_pos h]
    exact ⟨rfl, rfl⟩
  · intro nb i t h
    unfold change_cell_type _validate_cell_index
    rw [if_pos h]
    exact ⟨rfl, rfl⟩
  · intro nb i k v h
    unfold update_cell_metadata _validate_cell_index
    rw [if_pos h]
    exact ⟨rfl, rfl⟩
  · intro nb pat repl ur cs po h
    simp only [replace_in_notebook]
    rw [h]
    exact ⟨rfl, rfl, rfl⟩
  · intro nb pat ur cs
    simp only [search_notebook]
    cases hp : parseRx (if ur = true then pat.toList else reEscape pat.toList) with
    | err => exact ⟨rfl, rfl⟩
    | unsupported => exact ⟨rfl, rfl⟩
    | ok rx =>
      show (searchScan nb cs rx).store = nb ∧ (searchScan nb cs rx).saves = 0
      unfold searchScan
      split
      · exact ⟨rfl, rfl⟩
      · exact ⟨rfl, rfl⟩

/-- Witness for C8 at a concrete out-of-range update on a one-cell
document and a concrete malformed pattern (a quantifier with nothing to
repeat). -/
theorem c8_validation_before_mutation_witness :
    (update_cell (sampleNb ["a"]) 5 "zzz").store = sampleNb ["a"] ∧
    (update_cell (sampleNb ["a"]) 5 "zzz").saves = 0 ∧
    (replace_in_notebook (sampleNb ["a"]) "*" "x" true true false).store = sampleNb ["a"] ∧
    (replace_in_notebook (sampleNb ["a"]) "*" "x" true true false).saves = 0 := by
  have h1 := c8_validation_before_mutation.2.1 (sampleNb ["a"]) 5 "zzz" (by decide)
  have h2 := c8_validation_before_mutation.2.2.2.2.2.2.2.1 (sampleNb ["a"]) "*" "x"
    true true false (by decide)
  exact ⟨h1.1, h1.2, h2.1, h2.2.1⟩

/-- Helper: substitution succeeds on every input when the template
expands against every match text. -/
theorem rsubA_isSome (cs : Bool) (t : RTok) (ts : List RTok) (tmpl : List Char)
    (ht : ∀ mt, (expandTemplate mt tmpl).isSome = true) :
    ∀ (s : List Char) (skip : Nat), (rsubA cs t ts tmpl s skip).isSome = true := by
  intro s
  induction s with
  | nil => intro skip; rfl
  | cons c rest ih =>
    intro skip
    cases skip with
    | succ k => exact ih k
    | zero =>
      simp only [rsubA]
      by_cases hm : tokensMatch cs (t :: ts) (c :: rest) = true
      · rw [if_pos hm]
        obtain ⟨e, he⟩ := Option.isSome_iff_exists.mp (ht ((c :: rest).take (1 + ts.length)))
        rw [he]
        obtain ⟨r, hr⟩ := Option.isSome_iff_exists.mp (ih ts.length)
        rw [hr]
        rfl
      · rw [if_neg hm]
        obtain ⟨r, hr⟩ := Option.isSome_iff_exists.mp (ih 0)
        rw [hr]
        rfl

/-- Helper: rsub succeeds whenever the template always expands. -/
theorem rsub_isSome (cs : Bool) (rx : List RTok) (tmpl : List Char)
    (ht : ∀ mt, (expandTemplate mt tmpl).isSome = true) (s : List Char) :
    (rsub cs rx tmpl s).isSome = true := by
  cases rx with
  | nil =>
    unfold rsub
    obtain ⟨e, he⟩ := Option.isSome_iff_exists.mp (ht [])
    rw [he]
    rfl
  | cons t ts => exact rsubA_isSome cs t ts tmpl ht s 0

/-- Helper: the full characterization of the replace cell loop in
non-preview mode: it always succeeds when the template expands, its
total is the sum of the per-cell match counts, cells without a match are
kept, cells with a match get the substituted source, and the change
report holds exactly the matched cells with their counts. -/
theorem replaceLoop_spec (cs : Bool) (rx : List RTok) (tmpl : List Char)
    (ht : ∀ mt, (expandTemplate mt tmpl).isSome = true) :
    ∀ (cells : List Cell) (i : Nat),
      ∃ cells' changes total,
        replaceLoop cs rx tmpl false cells i = some (cells', changes, total) ∧
        total = (cells.map (fun c => (scanMatches cs rx c.source.toList).length)).sum ∧
        cells'.length = cells.length ∧
        (∀ j, j < cells.length →
          ((scanMatches cs rx (cells.getD j default).source.toList).length = 0 →
            cells'[j]? = cells[j]?) ∧
          (0 < (scanMatches cs rx (cells.getD j default).source.toList).length →
            ∃ ns, rsub cs rx tmpl (cells.getD j default).source.toList = some ns ∧
              cells'[j]? = some { cells.getD j default with source := String.mk ns })) ∧
        (∀ ch ∈ changes, ch.index ≥ i ∧ ch.index - i < cells.length ∧
          ch.count = (scanMatches cs rx
            (cells.getD (ch.index - i) default).source.toList).length ∧
          0 < ch.count) ∧
        (∀ j, j < cells.length →
          0 < (scanMatches cs rx (cells.getD j default).source.toList).length →
          ∃ ch ∈ changes, ch.index = i + j) := by
  intro cells
  induction cells with
  | nil =>
    intro i
    refine ⟨[], [], 0, rfl, rfl, rfl, ?_, ?_, ?_⟩
    · intro j hj; exact absurd hj (by simp)
    · intro ch hch; exact absurd hch (List.not_mem_nil _)
    · intro j hj; exact absurd hj (by simp)
  | cons cell rest ih =>
    intro i
    obtain ⟨cells', changes, total, hloop, htot, hlen, hcells, hch1, hch2⟩ := ih (i + 1)
    by_cases hms : (scanMatches cs rx cell.source.toList).isEmpty = true
    · have hms0 : (scanMatches cs rx cell.source.toList).length = 0 := by
        rw [List.isEmpty_iff.mp hms]
        rfl
      refine ⟨cell :: cells', changes, total, ?_, ?_, ?_, ?_, ?_, ?_⟩
      · simp only [replaceLoop]
        rw [if_pos hms, hloop]
        rfl
      · simp only [List.map_cons, List.sum_cons, hms0, htot, Nat.zero_add]
      · simp only [List.length_cons, hlen]
      · intro j hj
        cases j with
        | zero =>
          refine ⟨fun _ => by simp, fun hpos => ?_⟩
          rw [List.getD_cons_zero] at hpos
          omega
        | succ m =>
          have hm : m < rest.length := by
            simp only [List.length_cons] at hj
            omega
          obtain ⟨hz, hp⟩ := hcells m hm
          refine ⟨?_, ?_⟩
          · intro h0
            rw [List.getD_cons_succ] at h0
            simpa using hz h0
          · intro hpos
            rw [List.getD_cons_succ] at hpos
            obtain ⟨ns, hns, hcc⟩ := hp hpos
            exact ⟨ns, by rw [List.getD_cons_succ]; exact hns,
              by rw [List.getD_cons_succ]
                 simpa using hcc⟩
      · intro ch hch
        obtain ⟨hge, hlt, hcount, hpos⟩ := hch1 ch hch
        refine ⟨by omega, ?_, ?_, hpos⟩
        · simp only [List.length_cons]
          omega
        · rw [show ch.index - i = (ch.index - (i + 1)) + 1 from by omega, List.getD_cons_succ]
          exact hcount
      · intro j hj hpos
        cases j with
        | zero =>
          rw [List.getD_cons_zero] at hpos
          omega
        | succ m =>
          have hm : m < rest.length := by
            simp only [List.length_cons] at hj
            omega
          rw [List.getD_cons_succ] at hpos
          obtain ⟨ch, hchmem, hchidx⟩ := hch2 m hm hpos
          exact ⟨ch, hchmem, by omega⟩
    · obtain ⟨ns, hns⟩ := Option.isSome_iff_exists.mp (rsub_isSome cs rx tmpl ht
        cell.source.toList)
      refine ⟨{ cell with source := String.mk ns } :: cells',
        ⟨i, cell.cell_type, (scanMatches cs rx cell.source.toList).length,
          previewMark 50 cell.source, previewMark 50 (String.mk ns)⟩ :: changes,
        (scanMatches cs rx cell.source.toList).length + total, ?_, ?_, ?_, ?_, ?_, ?_⟩
      · simp only [replaceLoop]
        rw [if_neg hms, hns, hloop]
        rfl
      · simp only [List.map_cons, List.sum_cons, htot]
      · simp only [List.length_cons, hlen]
      · intro j hj
        cases j with
        | zero =>
          refine ⟨fun h0 => ?_, fun _ => ?_⟩
          · rw [List.getD_cons_zero] at h0
            rw [List.isEmpty_iff, ← List.length_eq_zero] at hms
            exact absurd h0 hms
          · exact ⟨ns, by rw [List.getD_cons_zero]; exact hns,
              by rw [List.getD_cons_zero]; simp⟩
        | succ m =>
          have hm : m < rest.length := by
            simp only [List.length_cons] at hj
            omega
          obtain ⟨hz, hp⟩ := hcells m hm
          refine ⟨?_, ?_⟩
          · intro h0
            rw [List.getD_cons_succ] at h0
            simpa using hz h0
          · intro hpos
            rw [List.getD_cons_succ] at hpos
            obtain ⟨ns2, hns2, hcc⟩ := hp hpos
            exact ⟨ns2, by rw [List.getD_cons_succ]; exact hns2,
              by rw [List.getD_cons_succ]
                 simpa using hcc⟩
      · intro ch hch
        rcases List.mem_cons.mp hch with rfl | hch'
        · refine ⟨le_refl _, ?_, ?_, ?_⟩
          · show i - i < (cell :: rest).length
            simp
          · show (scanMatches cs rx cell.source.toList).length =
              (scanMatches cs rx ((cell :: rest).getD (i - i) default).source.toList).length
            rw [Nat.sub_self, List.getD_cons_zero]
          · show 0 < (scanMatches cs rx cell.source.toList).length
            rw [List.isEmpty_iff, ← List.length_eq_zero] at hms
            omega
        · obtain ⟨hge, hlt, hcount, hpos⟩ := hch1 ch hch'
          refine ⟨by omega, ?_, ?_, hpos⟩
          · simp only [List.length_cons]
            omega
          · rw [show ch.index - i = (ch.index - (i + 1)) + 1 from by omega,
              List.getD_cons_succ]
            exact hcount
      · intro j hj hpos
        cases j with
        | zero => exact ⟨_, List.mem_cons_self _ _, by simp⟩
        | succ m =>
          have hm : m < rest.length := by
            simp only [List.length_cons] at hj
            omega
          rw [List.getD_cons_succ] at hpos
          obtain ⟨ch, hchmem, hchidx⟩ := hch2 m hm hpos
          exact ⟨ch, List.mem_cons_of_mem _ hchmem, by omega⟩

/-- Helper: once the pattern compiles, replace_in_notebook is the
replace body on the compiled tokens. -/
theorem replace_in_notebook_ok (nb : Notebook) (pattern replacement : String)
    (ur cs po : Bool) (rx : List RTok)
    (hc : parseRx (if ur = true then pattern.toList else reEscape pattern.toList) = .ok rx) :
    replace_in_notebook nb pattern replacement ur cs po =
      replaceRun nb cs rx replacement.toList po := by
  show (match parseRx (if ur = true then pattern.toList else reEscape pattern.toList) with
    | RxParse.err => (⟨nb, 0, .patternError⟩ : Call ReplaceOut)
    | RxParse.unsupported => ⟨nb, 0, .unmodeled⟩
    | RxParse.ok rx => replaceRun nb cs rx replacement.toList po) = _
  rw [hc]

/-- Helper: the replace body in preview mode never writes the store and
never saves, whatever the loop produced. -/
theorem replaceRun_preview (nb : Notebook) (cs : Bool) (rx : List RTok) (tmpl : List Char) :
    (replaceRun nb cs rx tmpl true).store = nb ∧ (replaceRun nb cs rx tmpl true).saves = 0 := by
  unfold replaceRun
  cases hl : replaceLoop cs rx tmpl true nb.cells 0 with
  | none => exact ⟨rfl, rfl⟩
  | some r =>
    obtain ⟨cells', changes, total⟩ := r
    show ((if total = 0 then (⟨nb, 0, .noMatches⟩ : Call ReplaceOut)
        else if true = true then ⟨nb, 0, .preview total changes⟩
        else ⟨{ nb with cells := cells' }, 1, .replaced total changes⟩).store = nb) ∧
      ((if total = 0 then (⟨nb, 0, .noMatches⟩ : Call ReplaceOut)
        else if true = true then ⟨nb, 0, .preview total changes⟩
        else ⟨{ nb with cells := cells' }, 1, .replaced total changes⟩).saves = 0)
    by_cases h0 : total = 0
    · rw [if_pos h0]
      exact ⟨rfl, rfl⟩
    · rw [if_neg h0, if_pos rfl]
      exact ⟨rfl, rfl⟩

/-- C1 counterexample: a pattern that compiles but matches nothing, with
previewOnly false, performs no save at all (the source returns the
zero-result notice before reaching the save), contradicting the claimed
save of exactly one. -/
theorem c1_counterexample_no_save_when_no_match :
    parseRx (reEscape "b".toList) = .ok [.Lit 'b'] ∧
    (replace_in_notebook (sampleNb ["a"]) "b" "c" false true false).saves = 0 ∧
    (replace_in_notebook (sampleNb ["a"]) "b" "c" false true false).out = .noMatches ∧
    (replace_in_notebook (sampleNb ["a"]) "b" "c" false true false).store = sampleNb ["a"] :=
  ⟨by decide, by rfl, by rfl, by rfl⟩

/-- C1 amended: for a pattern that compiles (to the token list rx) and a
replacement whose template always expands, Replace with previewOnly true
leaves the stored notebook untouched and performs no save; with
previewOnly false it replaces the source of exactly the cells with at
least one match by the substituted text and keeps every other cell,
reports a total equal to the sum of the per-cell match counts and one
change entry per matched cell with its count, and saves exactly once
when at least one match exists — with no match at all nothing is saved
and the zero-result notice is returned. -/
theorem c1_amended_replace_semantics (nb : Notebook) (pattern replacement : String)
    (ur cs : Bool) (rx : List RTok)
    (hc : parseRx (if ur = true then pattern.toList else reEscape pattern.toList) = .ok rx)
    (ht : ∀ mt, (expandTemplate mt replacement.toList).isSome = true) :
    (replace_in_notebook nb pattern replacement ur cs true).store = nb ∧
    (replace_in_notebook nb pattern replacement ur cs true).saves = 0 ∧
    (replace_in_notebook nb pattern replacement ur cs false).saves =
      (if (nb.cells.map (fun c => (scanMatches cs rx c.source.toList).length)).sum = 0
        then 0 else 1) ∧
    (replace_in_notebook nb pattern replacement ur cs false).store.cells.length =
      nb.cells.length ∧
    (∀ j, j < nb.cells.length →
      ((scanMatches cs rx (nb.cells.getD j default).source.toList).length = 0 →
        (replace_in_notebook nb pattern replacement ur cs false).store.cells[j]? =
          nb.cells[j]?) ∧
      (0 < (scanMatches cs rx (nb.cells.getD j default).source.toList).length →
        ∃ ns, rsub cs rx replacement.toList (nb.cells.getD j default).source.toList =
            some ns ∧
          (replace_in_notebook nb pattern replacement ur cs false).store.cells[j]? =
            some { nb.cells.getD j default with source := String.mk ns })) ∧
    ((nb.cells.map (fun c => (scanMatches cs rx c.source.toList).length)).sum = 0 →
      (replace_in_notebook nb pattern replacement ur cs false).out = .noMatches) ∧
    (0 < (nb.cells.map (fun c => (scanMatches cs rx c.source.toList).length)).sum →
      ∃ changes,
        (replace_in_notebook nb pattern replacement ur cs false).out =
          .replaced ((nb.cells.map (fun c =>
            (scanMatches cs rx c.source.toList).length)).sum) changes ∧
        (∀ ch ∈ changes, ch.index < nb.cells.length ∧
          ch.count = (scanMatches cs rx
            (nb.cells.getD ch.index default).source.toList).length ∧ 0 < ch.count) ∧
        (∀ j, j < nb.cells.length →
          0 < (scanMatches cs rx (nb.cells.getD j default).source.toList).length →
          ∃ ch ∈ changes, ch.index = j)) := by
  obtain ⟨cells', changes, total, hloop, htot, hlen, hcells, hch1, hch2⟩ :=
    replaceLoop_spec cs rx replacement.toList ht nb.cells 0
  have hpre := replaceRun_preview nb cs rx replacement.toList
  have hrun : replaceRun nb cs rx replacement.toList false =
      (if total = 0 then ⟨nb, 0, .noMatches⟩
       else ⟨{ nb with cells := cells' }, 1, .replaced total changes⟩ : Call ReplaceOut) := by
    unfold replaceRun
    rw [hloop]
    show (if total = 0 then (⟨nb, 0, .noMatches⟩ : Call ReplaceOut)
        else if false = true then ⟨nb, 0, .preview total changes⟩
        else ⟨{ nb with cells := cells' }, 1, .replaced total changes⟩) = _
    by_cases h0 : total = 0
    · rw [if_pos h0, if_pos h0]
    · rw [if_neg h0, if_neg h0, if_neg (by decide : ¬ (false = true))]
  refine ⟨?_, ?_, ?_, ?_, ?_, ?_, ?_⟩
  · rw [replace_in_notebook_ok nb pattern replacement ur cs true rx hc]
    exact hpre.1
  · rw [replace_in_notebook_ok nb pattern replacement ur cs true rx hc]
    exact hpre.2
  · rw [replace_in_notebook_ok nb pattern replacement ur cs false rx hc, hrun, ← htot]
    by_cases h0 : total = 0
    · rw [if_pos h0, if_pos h0]
    · rw [if_neg h0, if_neg h0]
  · rw [replace_in_notebook_ok nb pattern replacement ur cs false rx hc, hrun]
    by_cases h0 : total = 0
    · rw [if_pos h0]
    · rw [if_neg h0]
      exact hlen
  · intro j hj
    rw [replace_in_notebook_ok nb pattern replacement ur cs false rx hc, hrun]
    by_cases h0 : total = 0
    · rw [if_pos h0]
      refine ⟨fun _ => rfl, fun hpos => ?_⟩
      have hsum0 : (nb.cells.map (fun c => (scanMatches cs rx c.source.toList).length)).sum
          = 0 := by
        rw [← htot]
        exact h0
      have hgd : nb.cells.getD j default = nb.cells[j] := by
        rw [List.getD_eq_getElem?_getD, List.getElem?_eq_getElem hj]
        rfl
      have hmm : (scanMatches cs rx (nb.cells.getD j default).source.toList).length ∈
          nb.cells.map (fun c => (scanMatches cs rx c.source.toList).length) := by
        refine List.mem_map.mpr ⟨nb.cells.getD j default, ?_, rfl⟩
        rw [hgd]
        exact List.getElem_mem hj
      have := List.sum_eq_zero_iff.mp hsum0 _ hmm
      omega
    · rw [if_neg h0]
      exact hcells j hj
  · intro h0
    rw [replace_in_notebook_ok nb pattern replacement ur cs false rx hc, hrun,
      if_pos (by rw [htot]; exact h0)]
  · intro hpos
    have h0 : ¬ total = 0 := by
      rw [htot]
      omega
    rw [replace_in_notebook_ok nb pattern replacement ur cs false rx hc, hrun, if_neg h0]
    refine ⟨changes, by rw [htot], ?_, ?_⟩
    · intro ch hch
      obtain ⟨hge, hlt, hcount, hcpos⟩ := hch1 ch hch
      rw [Nat.sub_zero] at hlt hcount
      exact ⟨hlt, hcount, hcpos⟩
    · intro j hj hjpos
      obtain ⟨ch, hchmem, hchidx⟩ := hch2 j hj hjpos
      exact ⟨ch, hchmem, by omega⟩

/-- Witness for C1 amended at a concrete two-cell document: the matched
cell is substituted, the other kept, one save in replace mode and none
in preview mode. -/
theorem c1_amended_replace_semantics_witness :
    (replace_in_notebook (sampleNb ["aa b", "c"]) "a" "X" false true false).saves = 1 ∧
    (replace_in_notebook (sampleNb ["aa b", "c"]) "a" "X" false true false).store.cells.map
      Cell.source = ["XX b", "c"] ∧
    (replace_in_notebook (sampleNb ["aa b", "c"]) "a" "X" false true true).saves = 0 := by
  have h := c1_amended_replace_semantics (sampleNb ["aa b", "c"]) "a" "X" false true
    [.Lit 'a'] (by decide) (fun mt => by simp [expandTemplate])
  refine ⟨?_, by rfl, h.2.1⟩
  rw [h.2.2.1]
  decide

end NotebookMcp
